import Mathlib

/-!
Verification of the planning-session storage core (file backend `storage.ts`,
key-value backend `redis-storage.ts`, session manager `session-manager.ts`,
context resolution in `index.ts`, URL normalization in `repo-identifier.ts`).

Modelling conventions:
* JavaScript objects used as string-keyed dictionaries (`data.goals`,
  `data.plans`, the Redis keyspace) are association lists with JS-object
  semantics: insertion order is preserved, assigning to an existing key
  replaces the value in place, assigning to a fresh key appends at the end.
* Timestamps (`Date.now()`, `new Date().toISOString()`) are natural numbers
  supplied explicitly to each operation; the file backend's id allocation
  `Date.now().toString()` is `Nat.repr` of that number.
* `uuidv4()` results are explicit string parameters of the operations.
* JSON round-tripping (`JSON.parse ∘ JSON.stringify`) is the identity on the
  document structures involved, so the Redis keyspace maps keys directly to
  structured values.
* JavaScript truthiness on the option-valued arguments (`args.x || y`) is
  `none` or the empty string being falsy, everything else truthy.
-/

namespace Planning

/-! ## Association lists with JavaScript object semantics -/

/-- Lookup of `obj[k]` (first binding wins; states built by `aset` have
distinct keys). -/
def aget {α : Type} (k : String) : List (String × α) → Option α
  | [] => none
  | (k', v) :: rest => if k' = k then some v else aget k rest

/-- Assignment `obj[k] = v`: replace in place if the key exists, else append. -/
def aset {α : Type} (k : String) (v : α) : List (String × α) → List (String × α)
  | [] => [(k, v)]
  | (k', v') :: rest => if k' = k then (k, v) :: rest else (k', v') :: aset k v rest

/-- `Object.keys obj` in insertion order. -/
def akeys {α : Type} (l : List (String × α)) : List String := l.map Prod.fst

/-- `Object.values obj` in insertion order. -/
def avalues {α : Type} (l : List (String × α)) : List α := l.map Prod.snd

theorem aget_aset_same {α : Type} (k : String) (v : α) (l : List (String × α)) :
    aget k (aset k v l) = some v := by
  induction l with
  | nil => simp [aget, aset]
  | cons hd tl ih =>
    obtain ⟨k', v'⟩ := hd
    by_cases h : k' = k <;> simp [aget, aset, h, ih]

theorem aget_aset_ne {α : Type} {k k' : String} (h : k' ≠ k) (v : α)
    (l : List (String × α)) : aget k' (aset k v l) = aget k' l := by
  induction l with
  | nil =>
    have hne : ¬k = k' := fun hh => h hh.symm
    simp [aget, aset, hne]
  | cons hd tl ih =>
    obtain ⟨k₀, v₀⟩ := hd
    by_cases h₀ : k₀ = k
    · subst h₀
      have hne : ¬k₀ = k' := fun hh => h hh.symm
      simp [aget, aset, hne]
    · by_cases h₁ : k₀ = k'
      · subst h₁
        have hne : ¬k₀ = k := h₀
        simp [aget, aset, hne]
      · simp [aget, aset, h₀, h₁, ih]

theorem aset_of_not_mem_keys {α : Type} {k : String} {l : List (String × α)}
    (h : k ∉ akeys l) (v : α) : aset k v l = l ++ [(k, v)] := by
  induction l with
  | nil => simp [aset]
  | cons hd tl ih =>
    obtain ⟨k₀, v₀⟩ := hd
    simp only [akeys, List.map_cons, List.mem_cons] at h
    push_neg at h
    have hne : ¬k₀ = k := fun hh => h.1 hh.symm
    simp [aset, hne, ih (by simpa [akeys] using h.2)]

/-- Replace only the first element satisfying the predicate (JavaScript code
that mutates the object returned by `Array.prototype.find` in place). -/
def updateFirst {α : Type} (p : α → Bool) (f : α → α) : List α → List α
  | [] => []
  | x :: xs => if p x then f x :: xs else x :: updateFirst p f xs

/-- Remove only the first element satisfying the predicate
(`Array.prototype.splice` at the index found by `findIndex`). -/
def removeFirst {α : Type} (p : α → Bool) : List α → List α
  | [] => []
  | x :: xs => if p x then xs else x :: removeFirst p xs

/-! ## Decimal rendering: `Date.now().toString()` is injective and non-empty

The file backend allocates ids as `Date.now().toString()`; we prove that the
core rendering `Nat.repr` is injective and never produces the empty string.
-/

/-- Numeric value of a decimal digit character. -/
def digitVal (c : Char) : Nat := c.toNat - '0'.toNat

/-- Value of a most-significant-first digit string. -/
def digitsVal : List Char → Nat
  | [] => 0
  | c :: cs => digitVal c * 10 ^ cs.length + digitsVal cs

theorem digitVal_digitChar {m : Nat} (h : m < 10) :
    digitVal (Nat.digitChar m) = m := by
  interval_cases m <;> decide

theorem toDigitsCore_val :
    ∀ (fuel n : Nat) (ds : List Char), n < 10 ^ fuel →
      digitsVal (Nat.toDigitsCore 10 fuel n ds) = n * 10 ^ ds.length + digitsVal ds := by
  intro fuel
  induction fuel with
  | zero =>
    intro n ds h
    interval_cases n
    simp [Nat.toDigitsCore]
  | succ fuel ih =>
    intro n ds h
    simp only [Nat.toDigitsCore]
    by_cases h0 : n / 10 = 0
    · have hn : n < 10 := by omega
      simp only [h0, if_true]
      have hm : n % 10 = n := Nat.mod_eq_of_lt hn
      rw [show digitsVal (Nat.digitChar (n % 10) :: ds)
            = digitVal (Nat.digitChar (n % 10)) * 10 ^ ds.length + digitsVal ds from rfl,
          hm, digitVal_digitChar hn]
    · simp only [h0, if_false]
      have hlt : n / 10 < 10 ^ fuel := by
        apply Nat.div_lt_of_lt_mul
        calc n < 10 ^ (fuel + 1) := h
          _ = 10 * 10 ^ fuel := by ring
      rw [ih (n / 10) (Nat.digitChar (n % 10) :: ds) hlt]
      have h1 : digitsVal (Nat.digitChar (n % 10) :: ds)
          = n % 10 * 10 ^ ds.length + digitsVal ds := by
        rw [show digitsVal (Nat.digitChar (n % 10) :: ds)
              = digitVal (Nat.digitChar (n % 10)) * 10 ^ ds.length + digitsVal ds from rfl,
            digitVal_digitChar (show n % 10 < 10 by omega)]
      simp only [h1, List.length_cons, pow_succ]
      set q := n / 10
      set r := n % 10
      have hsplit : 10 * q + r = n := Nat.div_add_mod n 10
      rw [← hsplit]
      ring

theorem lt_ten_pow_succ (n : Nat) : n < 10 ^ (n + 1) := by
  calc n < 2 ^ n := Nat.lt_two_pow n
    _ ≤ 10 ^ n := Nat.pow_le_pow_left (by omega) n
    _ ≤ 10 ^ (n + 1) := Nat.pow_le_pow_right (by omega) (by omega)

theorem digitsVal_toDigits (n : Nat) : digitsVal (Nat.toDigits 10 n) = n := by
  have := toDigitsCore_val (n + 1) n [] (lt_ten_pow_succ n)
  simpa [Nat.toDigits, digitsVal] using this

theorem repr_injective {m n : Nat} (h : Nat.repr m = Nat.repr n) : m = n := by
  have hd : Nat.toDigits 10 m = Nat.toDigits 10 n := by
    have h2 := congrArg String.data h
    simpa [Nat.repr, List.asString] using h2
  have := digitsVal_toDigits m
  rw [hd, digitsVal_toDigits n] at this
  omega

theorem toDigitsCore_length_le :
    ∀ (fuel n : Nat) (ds : List Char), ds.length ≤ (Nat.toDigitsCore 10 fuel n ds).length := by
  intro fuel
  induction fuel with
  | zero => intro n ds; simp [Nat.toDigitsCore]
  | succ fuel ih =>
    intro n ds
    simp only [Nat.toDigitsCore]
    by_cases h0 : n / 10 = 0
    · simp [h0]
    · simp only [h0, if_false]
      calc ds.length ≤ (Nat.digitChar (n % 10) :: ds).length := by simp
        _ ≤ _ := ih (n / 10) (Nat.digitChar (n % 10) :: ds)

theorem repr_ne_empty (n : Nat) : Nat.repr n ≠ "" := by
  intro h
  have hlen : 1 ≤ (Nat.toDigits 10 n).length := by
    simp only [Nat.toDigits, Nat.toDigitsCore]
    by_cases h0 : n / 10 = 0
    · simp [h0]
    · simp only [h0, if_false]
      calc 1 = (Nat.digitChar (n % 10) :: []).length := by simp
        _ ≤ _ := toDigitsCore_length_le n (n / 10) _
  have hnil : Nat.toDigits 10 n = [] := by
    have h2 := congrArg String.data h
    simpa [Nat.repr, List.asString] using h2
  simp [hnil] at hlen

/-! ## Data model (`types.ts`) -/

/-- One actionable work item (`Todo` in `types.ts`). -/
structure Todo where
  id : String
  title : String
  description : String
  complexity : Nat
  codeExample : Option String
  isComplete : Bool
  createdAt : Nat
  updatedAt : Nat
deriving Repr, DecidableEq

/-- The caller-supplied part of a todo: `Omit<Todo, "id" | "isComplete" |
"createdAt" | "updatedAt">`. -/
structure TodoInput where
  title : String
  description : String
  complexity : Nat
  codeExample : Option String
deriving Repr, DecidableEq

/-- One planning objective (`Goal` in `types.ts`); `repository`/`branch` tags
are only stamped by the key-value backend. -/
structure Goal where
  id : String
  description : String
  createdAt : Nat
  repository : Option String
  branch : Option String
deriving Repr, DecidableEq

/-- Container of todos for one goal (`ImplementationPlan`). -/
structure ImplementationPlan where
  goalId : String
  todos : List Todo
  updatedAt : Nat
deriving Repr, DecidableEq

/-- One file-mode partition document (`StorageData`). -/
structure StorageData where
  branch : String
  projectPath : String
  goals : List (String × Goal)
  plans : List (String × ImplementationPlan)
  lastUpdated : Option Nat
deriving Repr, DecidableEq

/-- The todo built by `Storage.addTodo`/`RedisStorage.addTodo` from the
caller-supplied fields, a fresh id and the current time. -/
def mkTodo (id : String) (now : Nat) (inp : TodoInput) : Todo :=
  { id := id, title := inp.title, description := inp.description,
    complexity := inp.complexity, codeExample := inp.codeExample,
    isComplete := false, createdAt := now, updatedAt := now }

/-! ## File backend (`storage.ts`)

A `Storage` instance holds a project path, a branch and the in-memory
partition document `this.data`; the disk is a map from file paths to parsed
documents (every write is a whole-document `writeFile`). Each operation takes
the clock value `now` at which it runs (`Date.now()` / `new Date()`), the
instance, and the file system, exactly mirroring the TypeScript methods.
-/

/-- File system: file path to the parsed content of the JSON document. -/
def FileSys := List (String × StorageData)

/-- A `Storage` instance (`storage.ts`): `projectPath`, `currentBranch` and
the in-memory `data`. -/
structure FileStorage where
  projectPath : String
  currentBranch : String
  data : StorageData
deriving Repr, DecidableEq

namespace Storage

/-- `sanitizeBranchName`: `branch.replace(/[^a-zA-Z0-9-_]/g, "-")`. -/
def sanitizeChar (c : Char) : Char :=
  if c.isAlphanum ∨ c = '-' ∨ c = '_' then c else '-'

def sanitizeBranchName (branch : String) : String :=
  String.mk (branch.data.map sanitizeChar)

/-- `this.storagePath = path.join(projectPath, ".planning", safeBranch + ".todos.json")`. -/
def storagePath (s : FileStorage) : String :=
  s.projectPath ++ "/.planning/" ++ sanitizeBranchName s.currentBranch ++ ".todos.json"

/-- The empty in-memory document built by the constructor. -/
def emptyData (projectPath branch : String) : StorageData :=
  { branch := branch, projectPath := projectPath, goals := [], plans := [],
    lastUpdated := none }

/-- The constructor with an explicit `overrideBranch` (branch detection is
I/O and is supplied by the caller). -/
def mkStorage (projectPath branch : String) : FileStorage :=
  { projectPath := projectPath, currentBranch := branch,
    data := emptyData projectPath branch }

/-- `save()`: refresh `lastUpdated` and write the whole document to
`storagePath`. -/
def save (now : Nat) (s : FileStorage) (fs : FileSys) : FileStorage × FileSys :=
  let s' : FileStorage := { s with data := { s.data with lastUpdated := some now } }
  (s', aset (storagePath s) s'.data fs)

/-- `initialize()` of the file backend: read and parse the existing document
for this branch; on failure (first use) stamp `lastUpdated` and `save()`. -/
def initStorage (now : Nat) (s : FileStorage) (fs : FileSys) : FileStorage × FileSys :=
  match aget (storagePath s) fs with
  | some d => ({ s with data := d }, fs)
  | none => save now s fs

def getAllTodos (s : FileStorage) : List Todo :=
  (avalues s.data.plans).flatMap ImplementationPlan.todos

def getGoals (s : FileStorage) : List (String × Goal) := s.data.goals

def createGoal (now : Nat) (description : String) (s : FileStorage) (fs : FileSys) :
    Goal × FileStorage × FileSys :=
  let goal : Goal := { id := Nat.repr now, description := description,
                       createdAt := now, repository := none, branch := none }
  let s₁ : FileStorage := { s with data := { s.data with goals := aset goal.id goal s.data.goals } }
  let (s₂, fs₂) := save now s₁ fs
  (goal, s₂, fs₂)

def getGoal (id : String) (s : FileStorage) : Option Goal :=
  aget id s.data.goals

def createPlan (now : Nat) (goalId : String) (s : FileStorage) (fs : FileSys) :
    ImplementationPlan × FileStorage × FileSys :=
  let plan : ImplementationPlan := { goalId := goalId, todos := [], updatedAt := now }
  let s₁ : FileStorage := { s with data := { s.data with plans := aset goalId plan s.data.plans } }
  let (s₂, fs₂) := save now s₁ fs
  (plan, s₂, fs₂)

def getPlan (goalId : String) (s : FileStorage) : Option ImplementationPlan :=
  aget goalId s.data.plans

def addTodo (now : Nat) (goalId : String) (inp : TodoInput) (s : FileStorage)
    (fs : FileSys) : Except String (Todo × FileStorage × FileSys) :=
  match getPlan goalId s with
  | none => .error ("No plan found for goal " ++ goalId)
  | some plan =>
    let todo := mkTodo (Nat.repr now) now inp
    let plan' : ImplementationPlan :=
      { plan with todos := plan.todos ++ [todo], updatedAt := now }
    let s₁ : FileStorage := { s with data := { s.data with plans := aset goalId plan' s.data.plans } }
    let (s₂, fs₂) := save now s₁ fs
    .ok (todo, s₂, fs₂)

def removeTodo (now : Nat) (goalId todoId : String) (s : FileStorage)
    (fs : FileSys) : Except String (FileStorage × FileSys) :=
  match getPlan goalId s with
  | none => .error ("No plan found for goal " ++ goalId)
  | some plan =>
    let plan' : ImplementationPlan :=
      { plan with todos := plan.todos.filter (fun t => t.id ≠ todoId), updatedAt := now }
    let s₁ : FileStorage := { s with data := { s.data with plans := aset goalId plan' s.data.plans } }
    .ok (save now s₁ fs)

def updateTodoStatus (now : Nat) (goalId todoId : String) (isComplete : Bool)
    (s : FileStorage) (fs : FileSys) : Except String (Todo × FileStorage × FileSys) :=
  match getPlan goalId s with
  | none => .error ("No plan found for goal " ++ goalId)
  | some plan =>
    match plan.todos.find? (fun t => t.id = todoId) with
    | none => .error ("No todo found with id " ++ todoId)
    | some todo =>
      let todo' : Todo := { todo with isComplete := isComplete, updatedAt := now }
      let plan' : ImplementationPlan :=
        { plan with
            todos := updateFirst (fun t => t.id = todoId)
              (fun t => { t with isComplete := isComplete, updatedAt := now }) plan.todos,
            updatedAt := now }
      let s₁ : FileStorage := { s with data := { s.data with plans := aset goalId plan' s.data.plans } }
      let (s₂, fs₂) := save now s₁ fs
      .ok (todo', s₂, fs₂)

/-- `getTodos(goalId?)`; note the JavaScript truthiness test `if (goalId)`:
an empty-string argument falls through to the all-plans flatten. -/
def getTodos (goalId : Option String) (s : FileStorage) : List Todo :=
  match goalId with
  | some g =>
    if g = "" then getAllTodos s
    else
      match getPlan g s with
      | some plan => plan.todos
      | none => []
  | none => getAllTodos s

/-- Lines used by `savePlan`: `plan.split('\n').filter(line => line.trim())`. -/
def planLines (text : String) : List String :=
  (text.splitOn "\n").filter (fun l => l.trim ≠ "")

/-- The simplified todo `savePlan` builds for one line in the file backend. -/
def stepInput (line : String) : TodoInput :=
  { title := "Step", description := line.trim, complexity := 3, codeExample := none }

/-- The `for (const line of lines) await this.addTodo(...)` loop of
`savePlan`; `ts i` is the clock at the `i`-th iteration. A failing
`addTodo` propagates its error, but the state written by the earlier
iterations persists (the loop is non-transactional). -/
def savePlanGo (ts : Nat → Nat) (goalId : String) :
    Nat → List String → FileStorage → FileSys →
      Except String Unit × FileStorage × FileSys
  | _, [], s, fs => (.ok (), s, fs)
  | i, l :: rest, s, fs =>
    match addTodo (ts i) goalId (stepInput l) s fs with
    | .error e => (.error e, s, fs)
    | .ok (_, s', fs') => savePlanGo ts goalId (i + 1) rest s' fs'

/-- `savePlan(planText)`: pick the first goal id (or the rendered clock
`now` as a synthesized one), create a fallback goal at clock `nowG` when the
goal table is empty, then append one todo per non-empty line. -/
def savePlan (now nowG : Nat) (ts : Nat → Nat) (text : String) (s : FileStorage)
    (fs : FileSys) : Except String Unit × FileStorage × FileSys :=
  let lines := planLines text
  let goalIds := akeys s.data.goals
  let goalId :=
    match goalIds with
    | [] => Nat.repr now
    | k :: _ => if k = "" then Nat.repr now else k
  let (s₁, fs₁) :=
    if goalIds.isEmpty then
      let (_, s', fs') := createGoal nowG "Plan from text" s fs
      (s', fs')
    else (s, fs)
  savePlanGo ts goalId 0 lines s₁ fs₁

end Storage

/-! ## Key-value backend (`redis-client.ts`, `redis-storage.ts`)

The Redis keyspace maps string keys to structured values (JSON round-trips
are the identity, so documents are stored structurally). Keys are built by
plain string concatenation exactly as in `redis-client.ts`; nothing escapes
separators, so distinct argument triples can collide on one key.
-/

/-- `RepositoryContext` in `types.ts`. -/
structure RepositoryContext where
  repoIdentifier : String
  branch : String
  repoUrl : Option String
  repoName : Option String
  localPath : Option String
deriving Repr, DecidableEq

/-- `SessionContext` in `types.ts`. -/
structure SessionContext where
  userId : String
  sessionId : String
  repository : RepositoryContext
  createdAt : Nat
  lastAccessed : Nat
deriving Repr, DecidableEq

/-- The partition document `redis-storage.ts` stores under the data key
(`{branch, repository, goals, plans, lastUpdated}`). -/
structure RedisDoc where
  branch : String
  repository : String
  goals : List (String × Goal)
  plans : List (String × ImplementationPlan)
  lastUpdated : Option Nat
deriving Repr, DecidableEq

/-- A value in the keyspace: a partition document, a session record, or a
per-user session-id set. -/
inductive RVal where
  | doc : RedisDoc → RVal
  | sess : SessionContext → RVal
  | ids : List String → RVal
deriving Repr, DecidableEq

/-- The keyspace (the configured key prefix is applied uniformly by the
client and is dropped here). -/
def RStore := List (String × RVal)

def sessionKey (userId sessionId : String) : String :=
  "session:" ++ userId ++ ":" ++ sessionId

def userSessionsKey (userId : String) : String :=
  "user:" ++ userId ++ ":sessions"

/-- `userRepoDataKey` in `redis-client.ts`. -/
def userRepoDataKey (userId repoId branch : String) : String :=
  "user:" ++ userId ++ ":repo:" ++ repoId ++ ":branch:" ++ branch

/-- The identity of one `RedisStorage` instance: the parts of the
`SessionContext` it keeps (`userId`, `repository.repoIdentifier`,
`repository.branch`; the session id only matters for `save()`, which none of
the modelled operations call). -/
structure RedisCtx where
  userId : String
  repository : String
  branch : String
deriving Repr, DecidableEq

namespace RedisStorage

def dataKey (ctx : RedisCtx) : String :=
  userRepoDataKey ctx.userId ctx.repository ctx.branch

/-- The empty skeleton each mutating operation synthesizes when the
document is absent. -/
def emptyDoc (ctx : RedisCtx) : RedisDoc :=
  { branch := ctx.branch, repository := ctx.repository, goals := [], plans := [],
    lastUpdated := none }

/-- Read and parse the partition document (a key holding a non-document
value is treated as absent; no modelled operation ever stores one there). -/
def getDoc (ctx : RedisCtx) (st : RStore) : Option RedisDoc :=
  match aget (dataKey ctx) st with
  | some (.doc d) => some d
  | _ => none

/-- `initialize()` of the Redis backend is a no-op. -/
def initStorage (st : RStore) : RStore := st

/-- `getTodos(goalId?)`, with the same truthiness test as the file backend. -/
def getTodos (goalId : Option String) (ctx : RedisCtx) (st : RStore) : List Todo :=
  match getDoc ctx st with
  | none => []
  | some d =>
    match goalId with
    | some g =>
      if g = "" then (avalues d.plans).flatMap ImplementationPlan.todos
      else
        match aget g d.plans with
        | some plan => plan.todos
        | none => []
    | none => (avalues d.plans).flatMap ImplementationPlan.todos

/-- `addTodo`: reads the document (or an empty skeleton), picks
`goalId || Object.keys(goals)[0] || uuidv4()` (`altId` is that fallback
uuid), creates the plan when absent, appends, writes back. Never fails. -/
def addTodo (now : Nat) (newId altId : String) (goalId : String) (inp : TodoInput)
    (ctx : RedisCtx) (st : RStore) : Todo × RStore :=
  let d := (getDoc ctx st).getD (emptyDoc ctx)
  let newTodo := mkTodo newId now inp
  let activeGoalId :=
    if goalId ≠ "" then goalId
    else
      match akeys d.goals with
      | [] => altId
      | k :: _ => if k = "" then altId else k
  let plan :=
    match aget activeGoalId d.plans with
    | some p => p
    | none => { goalId := activeGoalId, todos := [], updatedAt := now }
  let plan' : ImplementationPlan :=
    { plan with todos := plan.todos ++ [newTodo], updatedAt := now }
  let d' : RedisDoc :=
    { d with plans := aset activeGoalId plan' d.plans, lastUpdated := some now }
  (newTodo, aset (dataKey ctx) (.doc d') st)

/-- `removeTodo`: NotFound when the document or the plan is absent, and —
unlike the file backend — also when the todo id is absent; a found todo is
removed by `splice` at its first index. -/
def removeTodo (now : Nat) (goalId todoId : String) (ctx : RedisCtx) (st : RStore) :
    Except String RStore :=
  match getDoc ctx st with
  | none => .error "No data found for this repository/branch"
  | some d =>
    match aget goalId d.plans with
    | none => .error ("No plan found for goal " ++ goalId)
    | some plan =>
      if (plan.todos.find? (fun t => t.id = todoId)).isSome then
        let plan' : ImplementationPlan :=
          { plan with todos := removeFirst (fun t => t.id = todoId) plan.todos,
                      updatedAt := now }
        let d' : RedisDoc :=
          { d with plans := aset goalId plan' d.plans, lastUpdated := some now }
        .ok (aset (dataKey ctx) (.doc d') st)
      else .error ("No todo found with id " ++ todoId)

/-- `updateTodoStatus`. -/
def updateTodoStatus (now : Nat) (goalId todoId : String) (isComplete : Bool)
    (ctx : RedisCtx) (st : RStore) : Except String (Todo × RStore) :=
  match getDoc ctx st with
  | none => .error "No data found for this repository/branch"
  | some d =>
    match aget goalId d.plans with
    | none => .error ("No plan found for goal " ++ goalId)
    | some plan =>
      match plan.todos.find? (fun t => t.id = todoId) with
      | none => .error ("No todo found with id " ++ todoId)
      | some todo =>
        let todo' : Todo := { todo with isComplete := isComplete, updatedAt := now }
        let plan' : ImplementationPlan :=
          { plan with
              todos := updateFirst (fun t => t.id = todoId)
                (fun t => { t with isComplete := isComplete, updatedAt := now }) plan.todos,
              updatedAt := now }
        let d' : RedisDoc :=
          { d with plans := aset goalId plan' d.plans, lastUpdated := some now }
        .ok (todo', aset (dataKey ctx) (.doc d') st)

/-- `setGoal`: upsert the goal stamped with this partition's repository and
branch. -/
def setGoal (now : Nat) (goal : Goal) (ctx : RedisCtx) (st : RStore) : RStore :=
  let d := (getDoc ctx st).getD (emptyDoc ctx)
  let g' : Goal :=
    { goal with repository := some ctx.repository, branch := some ctx.branch }
  let d' : RedisDoc :=
    { d with goals := aset goal.id g' d.goals, lastUpdated := some now }
  aset (dataKey ctx) (.doc d') st

def getGoal (id : String) (ctx : RedisCtx) (st : RStore) : Option Goal :=
  match getDoc ctx st with
  | none => none
  | some d => aget id d.goals

def getGoals (ctx : RedisCtx) (st : RStore) : List (String × Goal) :=
  match getDoc ctx st with
  | none => []
  | some d => d.goals

def getPlan (goalId : String) (ctx : RedisCtx) (st : RStore) : Option ImplementationPlan :=
  match getDoc ctx st with
  | none => none
  | some d => aget goalId d.plans

def createGoal (now : Nat) (newId : String) (description : String) (ctx : RedisCtx)
    (st : RStore) : Goal × RStore :=
  let goal : Goal := { id := newId, description := description, createdAt := now,
                       repository := some ctx.repository, branch := some ctx.branch }
  (goal, setGoal now goal ctx st)

def createPlan (now : Nat) (goalId : String) (ctx : RedisCtx) (st : RStore) :
    ImplementationPlan × RStore :=
  let plan : ImplementationPlan := { goalId := goalId, todos := [], updatedAt := now }
  let d := (getDoc ctx st).getD (emptyDoc ctx)
  let d' : RedisDoc :=
    { d with plans := aset goalId plan d.plans, lastUpdated := some now }
  (plan, aset (dataKey ctx) (.doc d') st)

/-- `formatPlanAsTodos`: one simplified todo per non-empty line, title
`Step <index+1>`, default complexity 3. -/
def formatPlanAsTodos (text : String) : List TodoInput :=
  (Storage.planLines text).enum.map (fun p =>
    { title := "Step " ++ Nat.repr (p.1 + 1), description := p.2.trim,
      complexity := 3, codeExample := none })

/-- The `for (const todo of todos) await this.addTodo(goalId, todo)` loop of
the Redis `savePlan`; the `i`-th call runs at clock `ts i` with fresh ids
`ids i` / `alt i`. -/
def savePlanGo (ts : Nat → Nat) (ids alt : Nat → String) (goalId : String) :
    Nat → List TodoInput → RedisCtx → RStore → RStore
  | _, [], _, st => st
  | i, inp :: rest, ctx, st =>
    savePlanGo ts ids alt goalId (i + 1) rest ctx
      (addTodo (ts i) (ids i) (alt i) goalId inp ctx st).2

/-- `savePlan`: parse the text, pick the first goal id (or `'default'`),
append each parsed todo via `addTodo`. Never fails. -/
def savePlan (ts : Nat → Nat) (ids alt : Nat → String) (text : String)
    (ctx : RedisCtx) (st : RStore) : RStore :=
  let todos := formatPlanAsTodos text
  let d := (getDoc ctx st).getD (emptyDoc ctx)
  let goalId :=
    match akeys d.goals with
    | [] => "default"
    | k :: _ => if k = "" then "default" else k
  savePlanGo ts ids alt goalId 0 todos ctx st

end RedisStorage

/-! ## Session manager (`session-manager.ts`) -/

namespace SessionManager

/-- `createOrUpdateSession`: upsert the full session record under
`session:<userId>:<sessionId>` and add the id to the user's session set;
`newId` is the `uuidv4()` used when no (truthy) session id is supplied. -/
def createOrUpdateSession (now : Nat) (newId : String) (userId : String)
    (sessionId : Option String) (repository : RepositoryContext) (st : RStore) :
    SessionContext × RStore :=
  let sid :=
    match sessionId with
    | some s => if s = "" then newId else s
    | none => newId
  let session : SessionContext :=
    { userId := userId, sessionId := sid, repository := repository,
      createdAt := now, lastAccessed := now }
  let st₁ := aset (sessionKey userId sid) (.sess session) st
  let prev :=
    match aget (userSessionsKey userId) st₁ with
    | some (.ids l) => l
    | _ => []
  let st₂ :=
    aset (userSessionsKey userId) (.ids (if sid ∈ prev then prev else prev ++ [sid])) st₁
  (session, st₂)

/-- `getSessionByIds(userId, sessionId)`. -/
def getSessionByIds (userId sessionId : String) (st : RStore) : Option SessionContext :=
  match aget (sessionKey userId sessionId) st with
  | some (.sess c) => some c
  | _ => none

end SessionManager

/-! ## Repository URL normalization (`repo-identifier.ts`)

`extractRepoIdentifier` tries three regular expressions in order:
`https?:\/\/([^\/]+)\/(.+?)(?:\.git)?$`, `git@([^:]+):(.+?)(?:\.git)?$`,
`ssh:\/\/git@([^\/]+)\/(.+?)(?:\.git)?$`, all unanchored at the start
(leftmost match wins), and returns `host/path` of the first that matches.
The embedding realizes exact JavaScript regex semantics on these three
patterns: leftmost starting position, greedy `[^x]+` runs (character
classes match any excluded-complement character, line terminators
included), and the lazy `(.+?)(?:\.git)?$` tail in which `.` matches no
line terminator (`\n`, `\r`, U+2028, U+2029) and `$` — the `m` flag is not
set — matches only at the very end of the input.
-/

namespace RepoId

/-- Expect a literal character sequence; return the remainder. -/
def parseLit : List Char → List Char → Option (List Char)
  | [], cs => some cs
  | _ :: _, [] => none
  | l :: ls, c :: cs => if c = l then parseLit ls cs else none

/-- The characters JavaScript `.` does not match (line terminators). -/
def isLineTerminator (c : Char) : Bool :=
  c = '\n' ∨ c = '\r' ∨ c = '\u2028' ∨ c = '\u2029'

/-- The lazy tail `(.+?)(?:\.git)?$` applied to the remainder of the
subject: the shortest non-empty line-terminator-free prefix whose
unmatched rest is consumed by the optional `.git` followed by the absolute
end of the input (the only position `$` matches without the `m` flag). -/
def lazyTail (rest : List Char) : Option (List Char) :=
  let p :=
    if 4 < rest.length ∧ rest.drop (rest.length - 4) = ['.', 'g', 'i', 't'] then
      rest.take (rest.length - 4)
    else rest
  if p ≠ [] ∧ ¬ p.any isLineTerminator then some p else none

/-- One attempt of pattern 1 (`https?:\/\/([^\/]+)\/(.+?)(?:\.git)?$`) at a
fixed starting position. -/
def p1At (cs : List Char) : Option (List Char × List Char) := do
  let cs₁ ← parseLit ['h', 't', 't', 'p'] cs
  let cs₂ := match cs₁ with
    | 's' :: r => r
    | _ => cs₁
  let cs₃ ← parseLit [':', '/', '/'] cs₂
  let host := cs₃.takeWhile (fun c => c ≠ '/')
  if host = [] then none
  else
    match cs₃.drop host.length with
    | '/' :: rest => do
      let g ← lazyTail rest
      some (host, g)
    | _ => none

/-- One attempt of pattern 2 (`git@([^:]+):(.+?)(?:\.git)?$`). -/
def p2At (cs : List Char) : Option (List Char × List Char) := do
  let cs₁ ← parseLit ['g', 'i', 't', '@'] cs
  let host := cs₁.takeWhile (fun c => c ≠ ':')
  if host = [] then none
  else
    match cs₁.drop host.length with
    | ':' :: rest => do
      let g ← lazyTail rest
      some (host, g)
    | _ => none

/-- One attempt of pattern 3 (`ssh:\/\/git@([^\/]+)\/(.+?)(?:\.git)?$`). -/
def p3At (cs : List Char) : Option (List Char × List Char) := do
  let cs₁ ← parseLit ['s', 's', 'h', ':', '/', '/', 'g', 'i', 't', '@'] cs
  let host := cs₁.takeWhile (fun c => c ≠ '/')
  if host = [] then none
  else
    match cs₁.drop host.length with
    | '/' :: rest => do
      let g ← lazyTail rest
      some (host, g)
    | _ => none

/-- Leftmost match: try the pattern at each starting position in turn. -/
def scan (f : List Char → Option (List Char × List Char)) :
    List Char → Option (List Char × List Char)
  | [] => f []
  | c :: cs =>
    match f (c :: cs) with
    | some r => some r
    | none => scan f cs

/-- `extractRepoIdentifier(gitRemoteUrl)`: first pattern that matches wins;
no match raises. -/
def extractRepoIdentifier (url : String) : Except String String :=
  let cs := url.data
  match scan p1At cs with
  | some (h, g) => .ok ((h ++ '/' :: g).asString)
  | none =>
    match scan p2At cs with
    | some (h, g) => .ok ((h ++ '/' :: g).asString)
    | none =>
      match scan p3At cs with
      | some (h, g) => .ok ((h ++ '/' :: g).asString)
      | none => .error ("Unable to parse repository URL: " ++ url)

end RepoId

/-! ## Context resolution (`index.ts`, `resolveContext`, Redis mode)

Branch/repository auto-detection is I/O (`git` subprocesses); its results
are passed in as `detectedRepo`/`detectedBranch`. The option-valued tool
arguments go through JavaScript truthiness (`none` and `""` are falsy).
-/

/-- The tool-call arguments `resolveContext` consumes. -/
structure Args where
  userId : Option String
  sessionId : Option String
  repository : Option String
  branch : Option String
  gitRemoteUrl : Option String
  projectPath : Option String
deriving Repr, DecidableEq

/-- JavaScript truthiness of an optional string argument. -/
def jsTruthy : Option String → Bool
  | none => false
  | some s => s ≠ ""

/-- `args.x || default` on optional string arguments. -/
def jsOr (v : Option String) (d : String) : String :=
  match v with
  | some s => if s = "" then d else s
  | none => d

/-- `resolveContext(args)` in Redis storage mode with a configured session
manager: require a truthy `userId`; derive repository and branch (explicit
argument, else `gitRemoteUrl` normalization — which can raise —, else
detection); then an existing session for a supplied `sessionId` wins, and
otherwise a session is created/updated. -/
def resolveContext (now : Nat) (newSid : String) (detectedRepo detectedBranch : String)
    (args : Args) (st : RStore) : Except String (SessionContext × RStore) := do
  if ¬ jsTruthy args.userId then
    .error "userId required for Redis storage mode"
  else
    let userId := jsOr args.userId "local"
    let repoId ←
      if jsTruthy args.repository then pure (jsOr args.repository "")
      else if jsTruthy args.gitRemoteUrl then
        match RepoId.extractRepoIdentifier (jsOr args.gitRemoteUrl "") with
        | .ok r => pure (if r = "" then detectedRepo else r)
        | .error e => .error e
      else pure detectedRepo
    let branch := if jsTruthy args.branch then jsOr args.branch "" else detectedBranch
    let repository : RepositoryContext :=
      { repoIdentifier := repoId, branch := branch, repoUrl := args.gitRemoteUrl,
        repoName := none, localPath := args.projectPath }
    if jsTruthy args.sessionId then
      match SessionManager.getSessionByIds userId (jsOr args.sessionId "") st with
      | some existing => pure (existing, st)
      | none =>
        pure (SessionManager.createOrUpdateSession now newSid userId args.sessionId
          repository st)
    else
      pure (SessionManager.createOrUpdateSession now newSid userId args.sessionId
        repository st)

/-! ## Operation sequences

One inductive covers the operations claim C1 quantifies over, with every
nondeterministic input (clock readings, fresh uuids) explicit. The same
constructor list is interpreted against either backend; inputs a backend
does not consume (uuids in file mode, for instance) are simply unused.
-/

inductive Op where
  | createGoal (now : Nat) (newId : String) (description : String)
  | createPlan (now : Nat) (goalId : String)
  | addTodo (now : Nat) (newId altId : String) (goalId : String) (inp : TodoInput)
  | updateTodoStatus (now : Nat) (goalId todoId : String) (isComplete : Bool)
  | removeTodo (now : Nat) (goalId todoId : String)
  | savePlan (now nowG : Nat) (ts : Nat → Nat) (ids alt : Nat → String) (text : String)

/-- Interpret one operation against the Redis backend; a raised error
leaves the store as it was (all error paths in the source return before any
`redis.set`). -/
def applyROp (ctx : RedisCtx) (op : Op) (st : RStore) : RStore :=
  match op with
  | .createGoal now newId d => (RedisStorage.createGoal now newId d ctx st).2
  | .createPlan now goalId => (RedisStorage.createPlan now goalId ctx st).2
  | .addTodo now newId altId goalId inp =>
    (RedisStorage.addTodo now newId altId goalId inp ctx st).2
  | .updateTodoStatus now goalId todoId c =>
    match RedisStorage.updateTodoStatus now goalId todoId c ctx st with
    | .ok p => p.2
    | .error _ => st
  | .removeTodo now goalId todoId =>
    match RedisStorage.removeTodo now goalId todoId ctx st with
    | .ok st' => st'
    | .error _ => st
  | .savePlan _ _ ts ids alt text => RedisStorage.savePlan ts ids alt text ctx st

def applyROps (ctx : RedisCtx) (ops : List Op) (st : RStore) : RStore :=
  ops.foldl (fun st op => applyROp ctx op st) st

/-- Interpret one operation against a file-backend instance (in-memory data
plus the file system); a raised error leaves whatever state the operation
had already written. -/
def applyFOp (op : Op) : FileStorage × FileSys → FileStorage × FileSys
  | (s, fs) =>
    match op with
    | .createGoal now _ d => (Storage.createGoal now d s fs).2
    | .createPlan now goalId => (Storage.createPlan now goalId s fs).2
    | .addTodo now _ _ goalId inp =>
      match Storage.addTodo now goalId inp s fs with
      | .ok r => r.2
      | .error _ => (s, fs)
    | .updateTodoStatus now goalId todoId c =>
      match Storage.updateTodoStatus now goalId todoId c s fs with
      | .ok r => r.2
      | .error _ => (s, fs)
    | .removeTodo now goalId todoId =>
      match Storage.removeTodo now goalId todoId s fs with
      | .ok r => r
      | .error _ => (s, fs)
    | .savePlan now nowG ts _ _ text => (Storage.savePlan now nowG ts text s fs).2

def applyFOps (ops : List Op) (p : FileStorage × FileSys) : FileStorage × FileSys :=
  ops.foldl (fun p op => applyFOp op p) p

/-! ### Key locality: every write of an operation hits its own partition key -/

theorem aget_savePlanGo_ne (ctx : RedisCtx) {k : String} (h : k ≠ RedisStorage.dataKey ctx)
    (ts : Nat → Nat) (ids alt : Nat → String) (goalId : String) :
    ∀ (i : Nat) (l : List TodoInput) (st : RStore),
      aget k (RedisStorage.savePlanGo ts ids alt goalId i l ctx st) = aget k st := by
  intro i l
  induction l generalizing i with
  | nil => intro st; simp [RedisStorage.savePlanGo]
  | cons hd tl ih =>
    intro st
    simp only [RedisStorage.savePlanGo]
    rw [ih (i + 1)]
    exact aget_aset_ne h _ _

theorem aget_applyROp_ne (ctx : RedisCtx) {k : String} (h : k ≠ RedisStorage.dataKey ctx)
    (op : Op) (st : RStore) : aget k (applyROp ctx op st) = aget k st := by
  cases op with
  | createGoal now newId d =>
    simp only [applyROp, RedisStorage.createGoal, RedisStorage.setGoal]
    exact aget_aset_ne h _ _
  | createPlan now goalId =>
    simp only [applyROp, RedisStorage.createPlan]
    exact aget_aset_ne h _ _
  | addTodo now newId altId goalId inp =>
    simp only [applyROp, RedisStorage.addTodo]
    exact aget_aset_ne h _ _
  | updateTodoStatus now goalId todoId c =>
    simp only [applyROp, RedisStorage.updateTodoStatus]
    cases hd : RedisStorage.getDoc ctx st with
    | none => simp
    | some d =>
      cases hp : aget goalId d.plans with
      | none => simp [hp]
      | some plan =>
        cases hf : plan.todos.find? (fun t => t.id = todoId) with
        | none => simp [hp, hf]
        | some todo => simpa [hp, hf] using aget_aset_ne h _ _
  | removeTodo now goalId todoId =>
    simp only [applyROp, RedisStorage.removeTodo]
    cases hd : RedisStorage.getDoc ctx st with
    | none => simp
    | some d =>
      cases hp : aget goalId d.plans with
      | none => simp [hp]
      | some plan =>
        by_cases hf : (plan.todos.find? (fun t => t.id = todoId)).isSome
        · simpa [hp, hf] using aget_aset_ne h _ _
        · simp [hp, hf]
  | savePlan now nowG ts ids alt text =>
    simp only [applyROp, RedisStorage.savePlan]
    exact aget_savePlanGo_ne ctx h ts ids alt _ 0 _ st

theorem aget_applyROps_ne (ctx : RedisCtx) {k : String} (h : k ≠ RedisStorage.dataKey ctx)
    (ops : List Op) (st : RStore) : aget k (applyROps ctx ops st) = aget k st := by
  induction ops generalizing st with
  | nil => rfl
  | cons op rest ih =>
    simp only [applyROps, List.foldl_cons]
    rw [show List.foldl (fun st op => applyROp ctx op st) (applyROp ctx op st) rest
          = applyROps ctx rest (applyROp ctx op st) from rfl,
        ih, aget_applyROp_ne ctx h]

theorem storagePath_data (s : FileStorage) (d : StorageData) :
    Storage.storagePath { s with data := d } = Storage.storagePath s := rfl

/-- All state a file operation leaves behind keeps the instance's identity
(project path and branch) and touches the file system only at the
instance's own `storagePath`. -/
theorem savePlanGo_locality (ts : Nat → Nat) (goalId : String) :
    ∀ (l : List String) (i : Nat) (s : FileStorage) (fs : FileSys),
      (Storage.savePlanGo ts goalId i l s fs).2.1.projectPath = s.projectPath ∧
      (Storage.savePlanGo ts goalId i l s fs).2.1.currentBranch = s.currentBranch ∧
      ∀ k, k ≠ Storage.storagePath s →
        aget k (Storage.savePlanGo ts goalId i l s fs).2.2 = aget k fs := by
  intro l
  induction l with
  | nil => intro i s fs; exact ⟨rfl, rfl, fun k hk => rfl⟩
  | cons hd tl ih =>
    intro i s fs
    simp only [Storage.savePlanGo]
    cases hp : Storage.getPlan goalId s with
    | none => simp [Storage.addTodo, hp, Storage.savePlanGo]
    | some plan =>
      simp only [Storage.addTodo, hp, Storage.save, storagePath_data]
      obtain ⟨h1, h2, h3⟩ := ih (i + 1)
        { s with data := { s.data with
            plans := aset goalId
              ({ plan with
                  todos := plan.todos ++ [mkTodo (Nat.repr (ts i)) (ts i) (Storage.stepInput hd)],
                  updatedAt := ts i }) s.data.plans,
            lastUpdated := some (ts i) } }
        (aset (Storage.storagePath s)
          { s.data with
            plans := aset goalId
              ({ plan with
                  todos := plan.todos ++ [mkTodo (Nat.repr (ts i)) (ts i) (Storage.stepInput hd)],
                  updatedAt := ts i }) s.data.plans,
            lastUpdated := some (ts i) } fs)
      refine ⟨h1, h2, fun k hk => ?_⟩
      rw [h3 k hk, aget_aset_ne hk]

theorem applyFOp_locality (op : Op) (s : FileStorage) (fs : FileSys) :
    (applyFOp op (s, fs)).1.projectPath = s.projectPath ∧
    (applyFOp op (s, fs)).1.currentBranch = s.currentBranch ∧
    ∀ k, k ≠ Storage.storagePath s →
      aget k (applyFOp op (s, fs)).2 = aget k fs := by
  cases op with
  | createGoal now newId d =>
    refine ⟨rfl, rfl, fun k hk => ?_⟩
    simp only [applyFOp, Storage.createGoal, Storage.save, storagePath_data]
    exact aget_aset_ne hk _ _
  | createPlan now goalId =>
    refine ⟨rfl, rfl, fun k hk => ?_⟩
    simp only [applyFOp, Storage.createPlan, Storage.save, storagePath_data]
    exact aget_aset_ne hk _ _
  | addTodo now newId altId goalId inp =>
    simp only [applyFOp, Storage.addTodo]
    cases hp : Storage.getPlan goalId s with
    | none => simp [hp]
    | some plan =>
      simp only [hp, Storage.save, storagePath_data]
      refine ⟨by simp, by simp, fun k hk => ?_⟩
      simpa using aget_aset_ne hk _ _
  | updateTodoStatus now goalId todoId c =>
    simp only [applyFOp, Storage.updateTodoStatus]
    cases hp : Storage.getPlan goalId s with
    | none => simp [hp]
    | some plan =>
      cases hf : plan.todos.find? (fun t => t.id = todoId) with
      | none => simp [hp, hf]
      | some todo =>
        simp only [hp, hf, Storage.save, storagePath_data]
        refine ⟨by simp, by simp, fun k hk => ?_⟩
        simpa using aget_aset_ne hk _ _
  | removeTodo now goalId todoId =>
    simp only [applyFOp, Storage.removeTodo]
    cases hp : Storage.getPlan goalId s with
    | none => simp [hp]
    | some plan =>
      simp only [hp, Storage.save, storagePath_data]
      refine ⟨by simp, by simp, fun k hk => ?_⟩
      simpa using aget_aset_ne hk _ _
  | savePlan now nowG ts ids alt text =>
    simp only [applyFOp]
    by_cases hg : (akeys s.data.goals).isEmpty
    · rw [List.isEmpty_iff] at hg
      simp only [Storage.savePlan, hg, List.isEmpty_nil, if_true]
      obtain ⟨h1, h2, h3⟩ := savePlanGo_locality ts (Nat.repr now) (Storage.planLines text) 0
        (Storage.createGoal nowG "Plan from text" s fs).2.1
        (Storage.createGoal nowG "Plan from text" s fs).2.2
      refine ⟨?_, ?_, fun k hk => ?_⟩
      · exact h1
      · exact h2
      · have step : aget k (Storage.createGoal nowG "Plan from text" s fs).2.2 = aget k fs := by
          simp only [Storage.createGoal, Storage.save, storagePath_data]
          exact aget_aset_ne hk _ _
        exact (h3 k hk).trans step
    · simp only [Storage.savePlan, hg, if_false]
      exact savePlanGo_locality ts _ (Storage.planLines text) 0 s fs

theorem applyFOps_locality (ops : List Op) (s : FileStorage) (fs : FileSys) :
    (applyFOps ops (s, fs)).1.projectPath = s.projectPath ∧
    (applyFOps ops (s, fs)).1.currentBranch = s.currentBranch ∧
    ∀ k, k ≠ Storage.storagePath s →
      aget k (applyFOps ops (s, fs)).2 = aget k fs := by
  induction ops generalizing s fs with
  | nil => exact ⟨rfl, rfl, fun k hk => rfl⟩
  | cons op rest ih =>
    obtain ⟨h1, h2, h3⟩ := applyFOp_locality op s fs
    obtain ⟨g1, g2, g3⟩ := ih (applyFOp op (s, fs)).1 (applyFOp op (s, fs)).2
    have hpath : Storage.storagePath (applyFOp op (s, fs)).1 = Storage.storagePath s := by
      simp [Storage.storagePath, h1, h2]
    refine ⟨?_, ?_, fun k hk => ?_⟩
    · simpa [applyFOps, h1] using g1
    · simpa [applyFOps, h2] using g2
    · have hg := g3 k (by rw [hpath]; exact hk)
      have hf := h3 k hk
      simpa [applyFOps, hf] using hg

/-! ## Shared concrete fixtures for counterexamples and witnesses -/

def sampleInput : TodoInput :=
  { title := "T1", description := "D1", complexity := 5, codeExample := none }

def sampleTodoA : Todo :=
  { id := "1", title := "A", description := "a", complexity := 1, codeExample := none,
    isComplete := false, createdAt := 1, updatedAt := 1 }

def sampleTodoB : Todo :=
  { id := "2", title := "B", description := "b", complexity := 2, codeExample := none,
    isComplete := false, createdAt := 2, updatedAt := 2 }

/-! ## Claims -/

/-- C9: `extractRepoIdentifier` maps the https, scp-like, and bare https
forms of `user/repo` on github.com all to `github.com/user/repo`, trying the
three URL patterns in order with the first match winning (the last conjunct
is a URL matched by both the scheme pattern and the scp-like pattern: the
earlier scheme interpretation is returned). -/
theorem C9_url_normalization :
    RepoId.extractRepoIdentifier "https://github.com/user/repo.git"
        = .ok "github.com/user/repo" ∧
    RepoId.extractRepoIdentifier "git@github.com:user/repo.git"
        = .ok "github.com/user/repo" ∧
    RepoId.extractRepoIdentifier "https://github.com/user/repo"
        = .ok "github.com/user/repo" ∧
    RepoId.extractRepoIdentifier "https://git@github.com:8080/user/repo"
        = .ok "git@github.com:8080/user/repo" :=
  ⟨rfl, rfl, rfl, rfl⟩

/-- C5: `initialize()` is idempotent on both backends: a second call (at any
later clock) leaves the instance and the file system exactly as the first
call left them, whether the partition document pre-existed or not; the Redis
`initialize()` is the identity on the store. -/
theorem C5_initialize_idempotent (now₁ now₂ : Nat) (s : FileStorage) (fs : FileSys) :
    (Storage.initStorage now₂ (Storage.initStorage now₁ s fs).1
        (Storage.initStorage now₁ s fs).2
      = Storage.initStorage now₁ s fs) ∧
    ∀ st : RStore, RedisStorage.initStorage (RedisStorage.initStorage st)
      = RedisStorage.initStorage st := by
  constructor
  · cases h : aget (Storage.storagePath s) fs with
    | some d => simp [Storage.initStorage, h, storagePath_data]
    | none =>
      simp [Storage.initStorage, h, Storage.save, storagePath_data, aget_aset_same]
  · intro st
    rfl

/-- C10 counterexample: with a plan stored under the empty-string goal id
holding one todo and a second plan holding another todo, `createPlan("")`
does reset the empty-string plan, but the subsequent `getTodos("")` is not
the empty sequence — the falsy goal id argument makes `getTodos` fall back
to flattening all plans, returning the other plan's todo. -/
theorem C10_counterexample :
    (Storage.getPlan ""
        { projectPath := "p", currentBranch := "b",
          data := { branch := "b",
                    projectPath := "p",
                    goals := [],
                    plans := [("", { goalId := "", todos := [sampleTodoA], updatedAt := 1 }),
                      ("g", { goalId := "g", todos := [sampleTodoB], updatedAt := 2 })],
                    lastUpdated := none } }).map ImplementationPlan.todos
        = some [sampleTodoA] ∧
    Storage.getTodos (some "")
        ((Storage.createPlan 5 ""
          { projectPath := "p", currentBranch := "b",
            data := { branch := "b",
                      projectPath := "p",
                      goals := [],
                      plans := [("", { goalId := "", todos := [sampleTodoA], updatedAt := 1 }),
                        ("g", { goalId := "g", todos := [sampleTodoB], updatedAt := 2 })],
                      lastUpdated := none } } []).2.1)
      = [sampleTodoB] := by
  constructor
  · rfl
  · rfl

/-- C10 (amended): `createPlan(goalId)` unconditionally installs a fresh
empty plan under `goalId`; for every non-empty `goalId`, a subsequent
`getTodos(goalId)` returns the empty sequence (for the empty-string goal id
`getTodos` treats its argument as absent and flattens all plans), and all
other plans and all goals are unchanged — on both backends. -/
theorem C10_createPlan_resets (now : Nat) (goalId : String) (hg : goalId ≠ "")
    (s : FileStorage) (fs : FileSys) (ctx : RedisCtx) (st : RStore) :
    (Storage.getTodos (some goalId) (Storage.createPlan now goalId s fs).2.1 = [] ∧
     (∀ k, k ≠ goalId →
       Storage.getPlan k (Storage.createPlan now goalId s fs).2.1 = Storage.getPlan k s) ∧
     Storage.getGoals (Storage.createPlan now goalId s fs).2.1 = Storage.getGoals s) ∧
    (RedisStorage.getTodos (some goalId) ctx (RedisStorage.createPlan now goalId ctx st).2 = [] ∧
     (∀ k, k ≠ goalId →
       RedisStorage.getPlan k ctx (RedisStorage.createPlan now goalId ctx st).2
         = RedisStorage.getPlan k ctx st) ∧
     RedisStorage.getGoals ctx (RedisStorage.createPlan now goalId ctx st).2
       = RedisStorage.getGoals ctx st) := by
  refine ⟨⟨?_, fun k hk => ?_, ?_⟩, ?_, fun k hk => ?_, ?_⟩
  · simp [Storage.createPlan, Storage.save, Storage.getTodos, Storage.getPlan, hg,
      aget_aset_same]
  · simp [Storage.createPlan, Storage.save, Storage.getPlan, aget_aset_ne hk]
  · simp [Storage.createPlan, Storage.save, Storage.getGoals]
  · simp [RedisStorage.createPlan, RedisStorage.getTodos, RedisStorage.getDoc,
      aget_aset_same, hg]
  · cases hd : RedisStorage.getDoc ctx st with
    | none =>
      simp [RedisStorage.createPlan, RedisStorage.getPlan, RedisStorage.getDoc,
        aget_aset_same, hd, aget_aset_ne hk] at hd ⊢
      cases hst : aget (RedisStorage.dataKey ctx) st with
      | none => simp [hst, aget, aget_aset_ne hk]
      | some v =>
        cases v with
        | doc d => simp [hst] at hd
        | sess c => simp [hst, aget, aget_aset_ne hk]
        | ids l => simp [hst, aget, aget_aset_ne hk]
    | some d =>
      simp [RedisStorage.createPlan, RedisStorage.getPlan, RedisStorage.getDoc, hd,
        aget_aset_same, aget_aset_ne hk]
      cases hst : aget (RedisStorage.dataKey ctx) st with
      | none => simp [RedisStorage.getDoc, hst] at hd
      | some v =>
        cases v with
        | doc d' =>
          simp [RedisStorage.getDoc, hst] at hd
          subst hd
          simp [hst]
        | sess c => simp [RedisStorage.getDoc, hst] at hd
        | ids l => simp [RedisStorage.getDoc, hst] at hd
  · cases hd : RedisStorage.getDoc ctx st with
    | none =>
      simp [RedisStorage.createPlan, RedisStorage.getGoals, hd, RedisStorage.getDoc,
        aget_aset_same, RedisStorage.emptyDoc]
      cases hst : aget (RedisStorage.dataKey ctx) st with
      | none => simp [hst, RedisStorage.emptyDoc]
      | some v =>
        cases v with
        | doc d => simp [RedisStorage.getDoc, hst] at hd
        | sess c => simp [hst, RedisStorage.emptyDoc]
        | ids l => simp [hst, RedisStorage.emptyDoc]
    | some d =>
      simp [RedisStorage.createPlan, RedisStorage.getGoals, hd, RedisStorage.getDoc,
        aget_aset_same]
      cases hst : aget (RedisStorage.dataKey ctx) st with
      | none => simp [RedisStorage.getDoc, hst] at hd
      | some v =>
        cases v with
        | doc d' =>
          simp [RedisStorage.getDoc, hst] at hd
          subst hd
          simp [hst]
        | sess c => simp [RedisStorage.getDoc, hst] at hd
        | ids l => simp [RedisStorage.getDoc, hst] at hd

/-- C10 witness: the amended theorem applied at a concrete non-empty goal
id, a concrete file instance and an empty Redis partition. -/
theorem C10_witness :
    Storage.getTodos (some "g")
      (Storage.createPlan 7 "g"
        { projectPath := "p", currentBranch := "b",
          data := Storage.emptyData "p" "b" } []).2.1 = [] ∧
    RedisStorage.getTodos (some "g")
      { userId := "u", repository := "r", branch := "b" }
      (RedisStorage.createPlan 7 "g"
        { userId := "u", repository := "r", branch := "b" } []).2 = [] := by
  have h := C10_createPlan_resets 7 "g" (by decide)
    { projectPath := "p", currentBranch := "b", data := Storage.emptyData "p" "b" } []
    { userId := "u", repository := "r", branch := "b" } []
  exact ⟨h.1.1, h.2.1⟩

/-- C3 counterexample: in the Redis backend, with a plan present for goal
`g` holding one todo (id `1`), `removeTodo` on the absent todo id `zzz` does
not return successfully — it raises NotFound. -/
theorem C3_counterexample :
    RedisStorage.getPlan "g" { userId := "u", repository := "r", branch := "b" }
        [(RedisStorage.dataKey { userId := "u", repository := "r", branch := "b" },
          RVal.doc { branch := "b", repository := "r", goals := [],
                     plans := [("g", { goalId := "g", todos := [sampleTodoA], updatedAt := 1 })],
                     lastUpdated := none })]
      = some { goalId := "g", todos := [sampleTodoA], updatedAt := 1 } ∧
    RedisStorage.removeTodo 5 "g" "zzz" { userId := "u", repository := "r", branch := "b" }
        [(RedisStorage.dataKey { userId := "u", repository := "r", branch := "b" },
          RVal.doc { branch := "b", repository := "r", goals := [],
                     plans := [("g", { goalId := "g", todos := [sampleTodoA], updatedAt := 1 })],
                     lastUpdated := none })]
      = .error "No todo found with id zzz" :=
  ⟨rfl, rfl⟩

/-- C3 (amended): in the file backend, `removeTodo` on a missing todoId with
the plan present returns successfully and leaves the plan's todo sequence
unchanged, and fails with NotFound exactly when the plan is absent; the
Redis backend diverges and raises NotFound on a missing todoId as well. -/
theorem C3_removeTodo_missing_id (now : Nat) (goalId todoId : String)
    (s : FileStorage) (fs : FileSys) (plan : ImplementationPlan)
    (hp : Storage.getPlan goalId s = some plan)
    (hmiss : ∀ t ∈ plan.todos, t.id ≠ todoId)
    (s₂ : FileStorage) (h₂ : Storage.getPlan goalId s₂ = none)
    (ctx : RedisCtx) (st : RStore) (d : RedisDoc) (rplan : ImplementationPlan)
    (hd : RedisStorage.getDoc ctx st = some d)
    (hrp : aget goalId d.plans = some rplan)
    (hrmiss : ∀ t ∈ rplan.todos, t.id ≠ todoId) :
    (∃ p, Storage.removeTodo now goalId todoId s fs = .ok p ∧
       Storage.getPlan goalId p.1 = some { plan with updatedAt := now }) ∧
    Storage.removeTodo now goalId todoId s₂ fs
      = .error ("No plan found for goal " ++ goalId) ∧
    RedisStorage.removeTodo now goalId todoId ctx st
      = .error ("No todo found with id " ++ todoId) := by
  refine ⟨?_, ?_, ?_⟩
  · have hfilter : plan.todos.filter (fun t => t.id ≠ todoId) = plan.todos := by
      rw [List.filter_eq_self]
      intro a ha
      simpa using hmiss a ha
    simp only [Storage.removeTodo, hp, Storage.save]
    refine ⟨_, rfl, ?_⟩
    simp [Storage.getPlan, aget_aset_same, hfilter]
    intro a ha
    exact hmiss a ha
  · simp [Storage.removeTodo, h₂]
  · have hfind : rplan.todos.find? (fun t => t.id = todoId) = none := by
      rw [List.find?_eq_none]
      intro a ha
      simpa using hrmiss a ha
    simp [RedisStorage.removeTodo, hd, hrp, hfind]

/-- C3 witness: the amended theorem applied to concrete partitions in both
backends, each holding a plan for goal `g` with one todo of id `1`, removing
the absent id `zzz`, plus a file partition with no plan at all. -/
theorem C3_witness :
    ∃ p, Storage.removeTodo 5 "g" "zzz"
        { projectPath := "p", currentBranch := "b",
          data := { branch := "b", projectPath := "p", goals := [],
                    plans := [("g", { goalId := "g", todos := [sampleTodoA], updatedAt := 1 })],
                    lastUpdated := none } } [] = .ok p ∧
      Storage.getPlan "g" p.1
        = some { goalId := "g", todos := [sampleTodoA], updatedAt := 5 } := by
  have h := C3_removeTodo_missing_id 5 "g" "zzz"
    { projectPath := "p", currentBranch := "b",
      data := { branch := "b", projectPath := "p", goals := [],
                plans := [("g", { goalId := "g", todos := [sampleTodoA], updatedAt := 1 })],
                lastUpdated := none } } []
    { goalId := "g", todos := [sampleTodoA], updatedAt := 1 } rfl
    (by decide)
    { projectPath := "p", currentBranch := "b", data := Storage.emptyData "p" "b" }
    rfl
    { userId := "u", repository := "r", branch := "b" }
    [(RedisStorage.dataKey { userId := "u", repository := "r", branch := "b" },
      RVal.doc { branch := "b", repository := "r", goals := [],
                 plans := [("g", { goalId := "g", todos := [sampleTodoA], updatedAt := 1 })],
                 lastUpdated := none })]
    { branch := "b", repository := "r", goals := [],
      plans := [("g", { goalId := "g", todos := [sampleTodoA], updatedAt := 1 })],
      lastUpdated := none }
    { goalId := "g", todos := [sampleTodoA], updatedAt := 1 }
    rfl rfl (by decide)
  exact h.1

/-- C2 counterexample: in the Redis backend, `addTodo` against a goal id
with no plan (an empty partition) does not raise NotFound — it succeeds,
creates the plan, and the partition is changed by the call. -/
theorem C2_counterexample :
    RedisStorage.getPlan "g" { userId := "u", repository := "r", branch := "b" } [] = none ∧
    (RedisStorage.addTodo 5 "t1" "alt" "g" sampleInput
        { userId := "u", repository := "r", branch := "b" } []).1
      = mkTodo "t1" 5 sampleInput ∧
    RedisStorage.getTodos (some "g") { userId := "u", repository := "r", branch := "b" }
        (RedisStorage.addTodo 5 "t1" "alt" "g" sampleInput
          { userId := "u", repository := "r", branch := "b" } []).2
      = [mkTodo "t1" 5 sampleInput] :=
  ⟨rfl, rfl, rfl⟩

/-- C2 (amended): in the file backend, `addTodo` and `updateTodoStatus`
against a goal id with no plan both fail with a NotFound error naming the
goal and leave the partition unchanged. In the Redis backend,
`updateTodoStatus` fails and leaves the store unchanged (its message names
the goal whenever the partition document exists, and is the generic
`No data found for this repository/branch` otherwise), but `addTodo`
diverges from the claim: it silently creates the missing plan and succeeds. -/
theorem C2_missing_plan (now : Nat) (newId altId goalId todoId : String)
    (hg : goalId ≠ "") (c : Bool) (inp : TodoInput) (s : FileStorage) (fs : FileSys)
    (hfp : Storage.getPlan goalId s = none)
    (ctx : RedisCtx) (st : RStore)
    (hrp : RedisStorage.getPlan goalId ctx st = none) :
    (Storage.addTodo now goalId inp s fs
       = .error ("No plan found for goal " ++ goalId) ∧
     Storage.updateTodoStatus now goalId todoId c s fs
       = .error ("No plan found for goal " ++ goalId) ∧
     applyFOp (Op.addTodo now newId altId goalId inp) (s, fs) = (s, fs) ∧
     applyFOp (Op.updateTodoStatus now goalId todoId c) (s, fs) = (s, fs)) ∧
    ((∃ e, RedisStorage.updateTodoStatus now goalId todoId c ctx st = .error e) ∧
     (∀ d, RedisStorage.getDoc ctx st = some d →
       RedisStorage.updateTodoStatus now goalId todoId c ctx st
         = .error ("No plan found for goal " ++ goalId)) ∧
     applyROp ctx (Op.updateTodoStatus now goalId todoId c) st = st) ∧
    ((RedisStorage.addTodo now newId altId goalId inp ctx st).1
       = mkTodo newId now inp ∧
     RedisStorage.getPlan goalId ctx (RedisStorage.addTodo now newId altId goalId inp ctx st).2
       = some { goalId := goalId, todos := [mkTodo newId now inp], updatedAt := now }) := by
  have hplans : ∀ d, RedisStorage.getDoc ctx st = some d → aget goalId d.plans = none := by
    intro d hdoc
    simp only [RedisStorage.getPlan, hdoc] at hrp
    exact hrp
  refine ⟨⟨?_, ?_, ?_, ?_⟩, ⟨?_, fun d hdoc => ?_, ?_⟩, ?_, ?_⟩
  · simp [Storage.addTodo, hfp]
  · simp [Storage.updateTodoStatus, hfp]
  · simp [applyFOp, Storage.addTodo, hfp]
  · simp [applyFOp, Storage.updateTodoStatus, hfp]
  · cases hdoc : RedisStorage.getDoc ctx st with
    | none => exact ⟨"No data found for this repository/branch", by
        simp [RedisStorage.updateTodoStatus, hdoc]⟩
    | some d => exact ⟨"No plan found for goal " ++ goalId, by
        simp [RedisStorage.updateTodoStatus, hdoc, hplans d hdoc]⟩
  · simp [RedisStorage.updateTodoStatus, hdoc, hplans d hdoc]
  · cases hdoc : RedisStorage.getDoc ctx st with
    | none => simp [applyROp, RedisStorage.updateTodoStatus, hdoc]
    | some d => simp [applyROp, RedisStorage.updateTodoStatus, hdoc, hplans d hdoc]
  · rfl
  · cases hst : aget (RedisStorage.dataKey ctx) st with
    | none =>
      simp [RedisStorage.addTodo, RedisStorage.getPlan, RedisStorage.getDoc, hst,
        RedisStorage.emptyDoc, hg, aget_aset_same, aget]
    | some v =>
      cases v with
      | doc d =>
        have hag : aget goalId d.plans = none :=
          hplans d (by simp [RedisStorage.getDoc, hst])
        simp [RedisStorage.addTodo, RedisStorage.getPlan, RedisStorage.getDoc, hst, hg,
          hag, aget_aset_same]
      | sess cse =>
        simp [RedisStorage.addTodo, RedisStorage.getPlan, RedisStorage.getDoc, hst,
          RedisStorage.emptyDoc, hg, aget_aset_same, aget]
      | ids l =>
        simp [RedisStorage.addTodo, RedisStorage.getPlan, RedisStorage.getDoc, hst,
          RedisStorage.emptyDoc, hg, aget_aset_same, aget]

/-- C2 witness: the amended theorem applied to a concrete empty partition in
each backend. -/
theorem C2_witness :
    Storage.addTodo 5 "g" sampleInput
      { projectPath := "p", currentBranch := "b", data := Storage.emptyData "p" "b" } []
      = .error "No plan found for goal g" ∧
    (∃ e, RedisStorage.updateTodoStatus 5 "g" "1" true
      { userId := "u", repository := "r", branch := "b" } [] = .error e) := by
  have h := C2_missing_plan 5 "t1" "alt" "g" "1" (by decide) true sampleInput
    { projectPath := "p", currentBranch := "b", data := Storage.emptyData "p" "b" } []
    rfl { userId := "u", repository := "r", branch := "b" } [] rfl
  exact ⟨h.1.1, h.2.1.1⟩

theorem mem_flatMap_aset {k : String} {p' : ImplementationPlan} {t : Todo}
    (ht : t ∈ p'.todos) :
    ∀ l : List (String × ImplementationPlan),
      t ∈ (avalues (aset k p' l)).flatMap ImplementationPlan.todos := by
  intro l
  induction l with
  | nil => simpa [aset, avalues]
  | cons hd tl ih =>
    obtain ⟨k₀, p₀⟩ := hd
    by_cases h : k₀ = k
    · simp only [aset, h, if_true, avalues, List.map_cons, List.flatMap_cons,
        List.mem_append]
      exact Or.inl ht
    · simp only [aset, h, if_false, avalues, List.map_cons, List.flatMap_cons,
        List.mem_append]
      exact Or.inr ih

/-- C6: round trip on both backends. `createGoal(d)` followed by `getGoal`
on the returned id yields a goal whose description is `d`, with a non-empty
id and its creation timestamp; `addTodo` on a plan-holding goal id followed
by `getTodos(goalId)` yields a sequence containing the returned todo, with
`isComplete = false`. -/
theorem C6_round_trip (now : Nat) (d : String) (newId altId goalId : String)
    (hid : newId ≠ "") (inp : TodoInput) (s : FileStorage) (fs : FileSys)
    (plan : ImplementationPlan) (hp : Storage.getPlan goalId s = some plan)
    (ctx : RedisCtx) (st : RStore) :
    (Storage.getGoal (Storage.createGoal now d s fs).1.id (Storage.createGoal now d s fs).2.1
       = some (Storage.createGoal now d s fs).1 ∧
     (Storage.createGoal now d s fs).1.description = d ∧
     (Storage.createGoal now d s fs).1.id ≠ "" ∧
     (Storage.createGoal now d s fs).1.createdAt = now) ∧
    (∃ t rest, Storage.addTodo now goalId inp s fs = .ok (t, rest) ∧
       t ∈ Storage.getTodos (some goalId) rest.1 ∧ t.isComplete = false) ∧
    (RedisStorage.getGoal (RedisStorage.createGoal now newId d ctx st).1.id ctx
         (RedisStorage.createGoal now newId d ctx st).2
       = some (RedisStorage.createGoal now newId d ctx st).1 ∧
     (RedisStorage.createGoal now newId d ctx st).1.description = d ∧
     (RedisStorage.createGoal now newId d ctx st).1.id ≠ "" ∧
     (RedisStorage.createGoal now newId d ctx st).1.createdAt = now) ∧
    ((RedisStorage.addTodo now newId altId goalId inp ctx st).1
        ∈ RedisStorage.getTodos (some goalId) ctx
          (RedisStorage.addTodo now newId altId goalId inp ctx st).2 ∧
     (RedisStorage.addTodo now newId altId goalId inp ctx st).1.isComplete = false) := by
  refine ⟨⟨?_, rfl, ?_, rfl⟩, ?_, ⟨?_, rfl, hid, rfl⟩, ?_, rfl⟩
  · simp [Storage.createGoal, Storage.save, Storage.getGoal, aget_aset_same]
  · exact repr_ne_empty now
  · simp only [Storage.addTodo, hp, Storage.save]
    refine ⟨_, _, rfl, ?_, rfl⟩
    by_cases hgc : goalId = ""
    · subst hgc
      simp only [Storage.getTodos, if_true, Storage.getAllTodos]
      exact mem_flatMap_aset (by simp) _
    · simp [Storage.getTodos, hgc, Storage.getPlan, aget_aset_same]
  · simp [RedisStorage.createGoal, RedisStorage.setGoal, RedisStorage.getGoal,
      RedisStorage.getDoc, aget_aset_same]
  · simp only [RedisStorage.addTodo]
    by_cases hgc : goalId = ""
    · subst hgc
      simp only [RedisStorage.getTodos, RedisStorage.getDoc, aget_aset_same, if_true]
      exact mem_flatMap_aset (by simp) _
    · rw [show (if goalId ≠ "" then goalId
          else match akeys ((RedisStorage.getDoc ctx st).getD (RedisStorage.emptyDoc ctx)).goals with
            | [] => altId
            | k :: _ => if k = "" then altId else k) = goalId from if_pos hgc]
      simp [RedisStorage.getTodos, RedisStorage.getDoc, aget_aset_same, hgc]

/-- C6 witness: the round-trip theorem applied at concrete inputs — a file
partition holding a plan for goal `g`, a non-empty uuid `t1`, and an empty
Redis partition. -/
theorem C6_witness :
    ∃ t rest, Storage.addTodo 5 "g" sampleInput
        { projectPath := "p", currentBranch := "b",
          data := { branch := "b", projectPath := "p", goals := [],
                    plans := [("g", { goalId := "g", todos := [], updatedAt := 1 })],
                    lastUpdated := none } } [] = .ok (t, rest) ∧
      t ∈ Storage.getTodos (some "g") rest.1 ∧ t.isComplete = false := by
  have h := C6_round_trip 5 "Build X" "t1" "alt" "g" (by decide) sampleInput
    { projectPath := "p", currentBranch := "b",
      data := { branch := "b", projectPath := "p", goals := [],
                plans := [("g", { goalId := "g", todos := [], updatedAt := 1 })],
                lastUpdated := none } } []
    { goalId := "g", todos := [], updatedAt := 1 } rfl
    { userId := "u", repository := "r", branch := "b" } []
  exact h.2.1

/-! ### savePlan support: the todos the loops append, in line order -/

/-- The todos the file backend's `savePlan` loop appends for the given
lines, starting at loop index `i`. -/
def mkStepTodos (ts : Nat → Nat) : Nat → List String → List Todo
  | _, [] => []
  | i, l :: rest =>
    mkTodo (Nat.repr (ts i)) (ts i) (Storage.stepInput l) :: mkStepTodos ts (i + 1) rest

/-- The todos the Redis backend's `savePlan` loop appends for the given
parsed inputs, starting at loop index `i`. -/
def mkStepTodosR (ids : Nat → String) (ts : Nat → Nat) : Nat → List TodoInput → List Todo
  | _, [] => []
  | i, inp :: rest => mkTodo (ids i) (ts i) inp :: mkStepTodosR ids ts (i + 1) rest

/-- The todo sequence currently stored under a goal id in a Redis
partition (empty when the plan or the document is absent). -/
def planTodosR (goalId : String) (ctx : RedisCtx) (st : RStore) : List Todo :=
  match RedisStorage.getPlan goalId ctx st with
  | some p => p.todos
  | none => []

/-- The goal id the Redis `savePlan` targets: the first goal key when
truthy, else `'default'`. -/
def savePlanGoalIdR (ctx : RedisCtx) (st : RStore) : String :=
  match akeys ((RedisStorage.getDoc ctx st).getD (RedisStorage.emptyDoc ctx)).goals with
  | [] => "default"
  | k :: _ => if k = "" then "default" else k

theorem savePlanGoalIdR_ne_empty (ctx : RedisCtx) (st : RStore) :
    savePlanGoalIdR ctx st ≠ "" := by
  unfold savePlanGoalIdR
  cases akeys ((RedisStorage.getDoc ctx st).getD (RedisStorage.emptyDoc ctx)).goals with
  | nil => decide
  | cons k rest =>
    by_cases h : k = "" <;> simp [h]

/-- One Redis `addTodo` call with a truthy goal id appends the new todo to
that goal's todo sequence and leaves every other plan and all goals
unchanged. -/
theorem getDoc_aset_doc (ctx : RedisCtx) (d : RedisDoc) (st : RStore) :
    RedisStorage.getDoc ctx (aset (RedisStorage.dataKey ctx) (.doc d) st) = some d := by
  simp [RedisStorage.getDoc, aget_aset_same]

theorem addTodoR_step (now : Nat) (nid alt goalId : String) (hg : goalId ≠ "")
    (inp : TodoInput) (ctx : RedisCtx) (st : RStore) :
    planTodosR goalId ctx (RedisStorage.addTodo now nid alt goalId inp ctx st).2
      = planTodosR goalId ctx st ++ [mkTodo nid now inp] ∧
    (∀ k', k' ≠ goalId →
      RedisStorage.getPlan k' ctx (RedisStorage.addTodo now nid alt goalId inp ctx st).2
        = RedisStorage.getPlan k' ctx st) ∧
    RedisStorage.getGoals ctx (RedisStorage.addTodo now nid alt goalId inp ctx st).2
      = RedisStorage.getGoals ctx st := by
  simp only [RedisStorage.addTodo]
  rw [show (if goalId ≠ "" then goalId
      else match akeys ((RedisStorage.getDoc ctx st).getD (RedisStorage.emptyDoc ctx)).goals with
        | [] => alt
        | k :: _ => if k = "" then alt else k) = goalId from if_pos hg]
  cases hdoc : RedisStorage.getDoc ctx st with
  | none =>
    refine ⟨?_, fun k' hk' => ?_, ?_⟩
    · simp [planTodosR, RedisStorage.getPlan, hdoc, getDoc_aset_doc, aget_aset_same,
        RedisStorage.emptyDoc, aget]
    · simp [RedisStorage.getPlan, hdoc, getDoc_aset_doc, aget_aset_ne hk',
        RedisStorage.emptyDoc, aget]
      exact fun hh => hk' hh.symm
    · simp [RedisStorage.getGoals, hdoc, getDoc_aset_doc, RedisStorage.emptyDoc]
  | some d =>
    cases hpl : aget goalId d.plans with
    | none =>
      refine ⟨?_, fun k' hk' => ?_, ?_⟩
      · simp [planTodosR, RedisStorage.getPlan, hdoc, hpl, getDoc_aset_doc, aget_aset_same]
      · simp [RedisStorage.getPlan, hdoc, hpl, getDoc_aset_doc, aget_aset_ne hk']
      · simp [RedisStorage.getGoals, hdoc, hpl, getDoc_aset_doc]
    | some p =>
      refine ⟨?_, fun k' hk' => ?_, ?_⟩
      · simp [planTodosR, RedisStorage.getPlan, hdoc, hpl, getDoc_aset_doc, aget_aset_same]
      · simp [RedisStorage.getPlan, hdoc, hpl, getDoc_aset_doc, aget_aset_ne hk']
      · simp [RedisStorage.getGoals, hdoc, hpl, getDoc_aset_doc]

/-- The Redis `savePlan` loop appends exactly the parsed todos, in order,
to the targeted goal's sequence, leaving other plans and the goals
unchanged. -/
theorem savePlanGoR_appends (ts : Nat → Nat) (ids alt : Nat → String)
    (goalId : String) (hg : goalId ≠ "") (ctx : RedisCtx) :
    ∀ (l : List TodoInput) (i : Nat) (st : RStore),
      planTodosR goalId ctx (RedisStorage.savePlanGo ts ids alt goalId i l ctx st)
        = planTodosR goalId ctx st ++ mkStepTodosR ids ts i l ∧
      (∀ k', k' ≠ goalId →
        RedisStorage.getPlan k' ctx (RedisStorage.savePlanGo ts ids alt goalId i l ctx st)
          = RedisStorage.getPlan k' ctx st) ∧
      RedisStorage.getGoals ctx (RedisStorage.savePlanGo ts ids alt goalId i l ctx st)
        = RedisStorage.getGoals ctx st := by
  intro l
  induction l with
  | nil => intro i st; simp [RedisStorage.savePlanGo, mkStepTodosR]
  | cons hd tl ih =>
    intro i st
    simp only [RedisStorage.savePlanGo]
    obtain ⟨s1, s2, s3⟩ := addTodoR_step (ts i) (ids i) (alt i) goalId hg hd ctx st
    obtain ⟨i1, i2, i3⟩ := ih (i + 1) (RedisStorage.addTodo (ts i) (ids i) (alt i) goalId hd ctx st).2
    refine ⟨?_, fun k' hk' => ?_, ?_⟩
    · rw [i1, s1, mkStepTodosR]
      simp
    · rw [i2 k' hk', s2 k' hk']
    · rw [i3, s3]

/-- The file `savePlan` loop, when a plan exists for the targeted goal id,
succeeds and appends exactly the per-line todos in order; other plans and
the goals are unchanged. -/
theorem savePlanGo_appends (ts : Nat → Nat) (goalId : String) :
    ∀ (l : List String) (i : Nat) (s : FileStorage) (fs : FileSys)
      (plan : ImplementationPlan), Storage.getPlan goalId s = some plan →
      (Storage.savePlanGo ts goalId i l s fs).1 = .ok () ∧
      (Storage.getPlan goalId (Storage.savePlanGo ts goalId i l s fs).2.1).map
          ImplementationPlan.todos
        = some (plan.todos ++ mkStepTodos ts i l) ∧
      (∀ k', k' ≠ goalId →
        Storage.getPlan k' (Storage.savePlanGo ts goalId i l s fs).2.1
          = Storage.getPlan k' s) ∧
      Storage.getGoals (Storage.savePlanGo ts goalId i l s fs).2.1
        = Storage.getGoals s := by
  intro l
  induction l with
  | nil => intro i s fs plan hp; simp [Storage.savePlanGo, mkStepTodos, hp]
  | cons hd tl ih =>
    intro i s fs plan hp
    simp only [Storage.savePlanGo, Storage.addTodo, hp, Storage.save]
    have hp' : Storage.getPlan goalId
        { s with data := { s.data with
            plans := aset goalId
              ({ plan with
                  todos := plan.todos ++ [mkTodo (Nat.repr (ts i)) (ts i) (Storage.stepInput hd)],
                  updatedAt := ts i }) s.data.plans,
            lastUpdated := some (ts i) } }
        = some { plan with
            todos := plan.todos ++ [mkTodo (Nat.repr (ts i)) (ts i) (Storage.stepInput hd)],
            updatedAt := ts i } := by
      simp [Storage.getPlan, aget_aset_same]
    obtain ⟨i1, i2, i3, i4⟩ := ih (i + 1) _ _ _ hp'
    refine ⟨i1, ?_, fun k' hk' => ?_, ?_⟩
    · rw [i2]
      simp [mkStepTodos]
    · rw [i3 k' hk']
      simp [Storage.getPlan, aget_aset_ne hk']
    · rw [i4]
      simp [Storage.getGoals]

/-- C8: `savePlan(planText)` parses the text into one simplified todo per
non-empty line (trimmed description, fixed default complexity 3) and appends
each via `addTodo` in line order, targeting the first existing goal id (or a
synthesized default). After a successful call the targeted plan holds
exactly the new todos appended after the pre-existing ones, and all other
plans and the goals are unchanged — in the file backend whenever the first
goal id is truthy and holds a plan (otherwise the loop's `addTodo` raises),
and in the Redis backend unconditionally. -/
theorem C8_savePlan (now nowG : Nat) (ts : Nat → Nat) (ids alt : Nat → String)
    (text : String) (s : FileStorage) (fs : FileSys)
    (k : String) (krest : List String) (hk : akeys s.data.goals = k :: krest)
    (hk0 : k ≠ "") (plan : ImplementationPlan) (hp : Storage.getPlan k s = some plan)
    (ctx : RedisCtx) (st : RStore) :
    ((Storage.savePlan now nowG ts text s fs).1 = .ok () ∧
     (Storage.getPlan k (Storage.savePlan now nowG ts text s fs).2.1).map
         ImplementationPlan.todos
       = some (plan.todos ++ mkStepTodos ts 0 (Storage.planLines text)) ∧
     (∀ k', k' ≠ k →
       Storage.getPlan k' (Storage.savePlan now nowG ts text s fs).2.1
         = Storage.getPlan k' s) ∧
     Storage.getGoals (Storage.savePlan now nowG ts text s fs).2.1
       = Storage.getGoals s) ∧
    (planTodosR (savePlanGoalIdR ctx st) ctx (RedisStorage.savePlan ts ids alt text ctx st)
       = planTodosR (savePlanGoalIdR ctx st) ctx st
         ++ mkStepTodosR ids ts 0 (RedisStorage.formatPlanAsTodos text) ∧
     (∀ k', k' ≠ savePlanGoalIdR ctx st →
       RedisStorage.getPlan k' ctx (RedisStorage.savePlan ts ids alt text ctx st)
         = RedisStorage.getPlan k' ctx st) ∧
     RedisStorage.getGoals ctx (RedisStorage.savePlan ts ids alt text ctx st)
       = RedisStorage.getGoals ctx st) := by
  constructor
  · have hred : Storage.savePlan now nowG ts text s fs
        = Storage.savePlanGo ts k 0 (Storage.planLines text) s fs := by
      simp [Storage.savePlan, hk, hk0]
    rw [hred]
    exact savePlanGo_appends ts k (Storage.planLines text) 0 s fs plan hp
  · exact savePlanGoR_appends ts ids alt (savePlanGoalIdR ctx st)
      (savePlanGoalIdR_ne_empty ctx st) ctx (RedisStorage.formatPlanAsTodos text) 0 st

/-- C8 witness: `savePlan` applied to a concrete two-line text against a
file partition whose single goal `g` holds an empty plan, and against an
empty Redis partition. -/
theorem C8_witness :
    (Storage.savePlan 9 10 (fun i => 20 + i) "a\nb"
        { projectPath := "p", currentBranch := "b",
          data := { branch := "b", projectPath := "p",
                    goals := [("g", { id := "g", description := "G", createdAt := 1,
                                      repository := none, branch := none })],
                    plans := [("g", { goalId := "g", todos := [], updatedAt := 1 })],
                    lastUpdated := none } } []).1 = .ok () ∧
    (Storage.getPlan "g" (Storage.savePlan 9 10 (fun i => 20 + i) "a\nb"
        { projectPath := "p", currentBranch := "b",
          data := { branch := "b", projectPath := "p",
                    goals := [("g", { id := "g", description := "G", createdAt := 1,
                                      repository := none, branch := none })],
                    plans := [("g", { goalId := "g", todos := [], updatedAt := 1 })],
                    lastUpdated := none } } []).2.1).map ImplementationPlan.todos
      = some ([] ++ mkStepTodos (fun i => 20 + i) 0 (Storage.planLines "a\nb")) ∧
    planTodosR (savePlanGoalIdR { userId := "u", repository := "r", branch := "b" } [])
        { userId := "u", repository := "r", branch := "b" }
        (RedisStorage.savePlan (fun i => 20 + i) (fun i => Nat.repr (30 + i))
          (fun i => Nat.repr (40 + i)) "a\nb"
          { userId := "u", repository := "r", branch := "b" } [])
      = planTodosR (savePlanGoalIdR { userId := "u", repository := "r", branch := "b" } [])
          { userId := "u", repository := "r", branch := "b" } []
        ++ mkStepTodosR (fun i => Nat.repr (30 + i)) (fun i => 20 + i) 0
          (RedisStorage.formatPlanAsTodos "a\nb") := by
  have h := C8_savePlan 9 10 (fun i => 20 + i) (fun i => Nat.repr (30 + i))
    (fun i => Nat.repr (40 + i)) "a\nb"
    { projectPath := "p", currentBranch := "b",
      data := { branch := "b", projectPath := "p",
                goals := [("g", { id := "g", description := "G", createdAt := 1,
                                  repository := none, branch := none })],
                plans := [("g", { goalId := "g", todos := [], updatedAt := 1 })],
                lastUpdated := none } } []
    "g" [] rfl (by decide) { goalId := "g", todos := [], updatedAt := 1 } rfl
    { userId := "u", repository := "r", branch := "b" } []
  exact ⟨h.1.1, h.1.2.1, h.2.1⟩

/-! ### Session keys of the two namespaces never collide -/

theorem sessionKey_ne_userSessionsKey (a b c : String) :
    sessionKey a b ≠ userSessionsKey c := by
  intro h
  have h2 : (sessionKey a b).data.head? = (userSessionsKey c).data.head? := by rw [h]
  simp [sessionKey, userSessionsKey, String.data_append] at h2

/-- Looking up the session just written by `createOrUpdateSession` with its
own (truthy) session id returns exactly that record. -/
theorem getSessionByIds_create (now : Nat) (newId u sid : String) (hsid : sid ≠ "")
    (repo : RepositoryContext) (st : RStore) :
    SessionManager.getSessionByIds u sid
        (SessionManager.createOrUpdateSession now newId u (some sid) repo st).2
      = some { userId := u, sessionId := sid, repository := repo,
               createdAt := now, lastAccessed := now } := by
  have hs : (if sid = "" then newId else sid) = sid := if_neg hsid
  simp only [SessionManager.createOrUpdateSession, hs, SessionManager.getSessionByIds]
  rw [aget_aset_ne (sessionKey_ne_userSessionsKey u sid u), aget_aset_same]

/-- When the arguments carry a truthy `userId` and `sessionId`, the fresh
repository derivation does not raise, and the session exists, Redis-mode
`resolveContext` returns the stored session verbatim and leaves the store
unchanged. -/
theorem resolveContext_session_found (now : Nat) (newSid : String)
    (detectedRepo detectedBranch : String) (args : Args) (u sid : String)
    (hu : u ≠ "") (hau : args.userId = some u) (hsid : sid ≠ "")
    (has : args.sessionId = some sid)
    (hderive : jsTruthy args.repository = true ∨ jsTruthy args.gitRemoteUrl = false ∨
      ∃ r, RepoId.extractRepoIdentifier (jsOr args.gitRemoteUrl "") = .ok r)
    (st : RStore) (sess : SessionContext)
    (hfound : SessionManager.getSessionByIds u sid st = some sess) :
    resolveContext now newSid detectedRepo detectedBranch args st = .ok (sess, st) := by
  have htu : jsTruthy args.userId = true := by simp [hau, jsTruthy, hu]
  have hts : jsTruthy args.sessionId = true := by simp [has, jsTruthy, hsid]
  have hjor : jsOr args.userId "local" = u := by simp [hau, jsOr, hu]
  have hjos : jsOr args.sessionId "" = sid := by simp [has, jsOr, hsid]
  by_cases hr : jsTruthy args.repository = true
  · simp [resolveContext, htu, hr, hts, hjor, hjos, hfound, pure, Except.pure, bind, Except.bind]
  · have hr' : jsTruthy args.repository = false := by
      cases h : jsTruthy args.repository
      · rfl
      · exact absurd h hr
    by_cases hg : jsTruthy args.gitRemoteUrl = true
    · rcases hderive with h | h | h
      · exact absurd h hr
      · rw [hg] at h; exact absurd h (by decide)
      · obtain ⟨r, hok⟩ := h
        simp [resolveContext, htu, hr', hg, hok, hts, hjor, hjos, hfound, pure,
          Except.pure, bind, Except.bind]
    · have hg' : jsTruthy args.gitRemoteUrl = false := by
        cases h : jsTruthy args.gitRemoteUrl
        · rfl
        · exact absurd h hg
      simp [resolveContext, htu, hr', hg', hts, hjor, hjos, hfound, pure, Except.pure, bind, Except.bind]

/-- C4 counterexample: a session exists for user `u`, session id `s`, yet
resolving context again with that `userId` and `sessionId` while also
supplying an unparseable `gitRemoteUrl` (and no `repository`) raises the URL
parse error instead of returning the stored SessionContext — the fresh
repository derivation runs before the session lookup. -/
theorem C4_counterexample :
    SessionManager.getSessionByIds "u" "s"
        (SessionManager.createOrUpdateSession 1 "n" "u" (some "s")
          { repoIdentifier := "R", branch := "B", repoUrl := none, repoName := none,
            localPath := none } []).2
      = some { userId := "u", sessionId := "s",
               repository := { repoIdentifier := "R", branch := "B", repoUrl := none,
                               repoName := none, localPath := none },
               createdAt := 1, lastAccessed := 1 } ∧
    resolveContext 2 "n2" "dr" "db"
        { userId := some "u", sessionId := some "s", repository := none,
          branch := none, gitRemoteUrl := some "nota url", projectPath := none }
        (SessionManager.createOrUpdateSession 1 "n" "u" (some "s")
          { repoIdentifier := "R", branch := "B", repoUrl := none, repoName := none,
            localPath := none } []).2
      = .error "Unable to parse repository URL: nota url" :=
  ⟨rfl, rfl⟩

/-- C4 (amended): session continuation wins over fresh arguments provided
the fresh derivation itself does not raise: for every session previously
created for (userId, sessionId) with repository `R` and branch `B`, and
every argument set carrying that truthy userId and sessionId whose
`repository` is truthy, or whose `gitRemoteUrl` is falsy, or whose
`gitRemoteUrl` parses, resolving context returns the stored SessionContext
(repository identifier `R`, branch `B`) unchanged, whatever `repository`,
`branch`, or `gitRemoteUrl` values the call supplies; an unparseable
`gitRemoteUrl` supplied without `repository` instead raises before the
session lookup. -/
theorem C4_session_continuation (now₀ now : Nat) (newId newSid : String)
    (u sid R B : String) (hu : u ≠ "") (hsid : sid ≠ "")
    (url rn lp : Option String) (detectedRepo detectedBranch : String)
    (args : Args) (hau : args.userId = some u) (has : args.sessionId = some sid)
    (hderive : jsTruthy args.repository = true ∨ jsTruthy args.gitRemoteUrl = false ∨
      ∃ r, RepoId.extractRepoIdentifier (jsOr args.gitRemoteUrl "") = .ok r)
    (st : RStore) :
    ∃ sess : SessionContext,
      resolveContext now newSid detectedRepo detectedBranch args
          (SessionManager.createOrUpdateSession now₀ newId u (some sid)
            { repoIdentifier := R, branch := B, repoUrl := url, repoName := rn,
              localPath := lp } st).2
        = .ok (sess,
            (SessionManager.createOrUpdateSession now₀ newId u (some sid)
              { repoIdentifier := R, branch := B, repoUrl := url, repoName := rn,
                localPath := lp } st).2) ∧
      sess.repository.repoIdentifier = R ∧ sess.repository.branch = B := by
  refine ⟨_, resolveContext_session_found now newSid detectedRepo detectedBranch args u sid
    hu hau hsid has hderive _ _ (getSessionByIds_create now₀ newId u sid hsid _ st), rfl, rfl⟩

/-- C4 witness: the amended theorem applied at a concrete stored session and
a call that supplies different (parseable) repository information. -/
theorem C4_witness :
    ∃ sess : SessionContext,
      resolveContext 2 "n2" "dr" "db"
          { userId := some "u", sessionId := some "s", repository := some "other/repo",
            branch := some "other", gitRemoteUrl := none, projectPath := none }
          (SessionManager.createOrUpdateSession 1 "n" "u" (some "s")
            { repoIdentifier := "R", branch := "B", repoUrl := none, repoName := none,
              localPath := none } []).2
        = .ok (sess,
            (SessionManager.createOrUpdateSession 1 "n" "u" (some "s")
              { repoIdentifier := "R", branch := "B", repoUrl := none, repoName := none,
                localPath := none } []).2) ∧
      sess.repository.repoIdentifier = "R" ∧ sess.repository.branch = "B" :=
  C4_session_continuation 1 2 "n" "n2" "u" "s" "R" "B" (by decide) (by decide)
    none none none "dr" "db"
    { userId := some "u", sessionId := some "s", repository := some "other/repo",
      branch := some "other", gitRemoteUrl := none, projectPath := none }
    rfl rfl (Or.inl (by decide)) []

/-- C1 counterexample: two distinct partitions (their repositories and
branches differ) whose colon-joined composite keys coincide —
`user:u:repo:a:branch:x:branch:y` — so a todo added to the first partition
is returned by `getTodos` against the second. -/
theorem C1_counterexample :
    ({ userId := "u", repository := "a:branch:x", branch := "y" } : RedisCtx)
      ≠ { userId := "u", repository := "a", branch := "x:branch:y" } ∧
    RedisStorage.getTodos (some "g")
        { userId := "u", repository := "a", branch := "x:branch:y" }
        (RedisStorage.addTodo 5 "t1" "alt" "g" sampleInput
          { userId := "u", repository := "a:branch:x", branch := "y" } []).2
      = [mkTodo "t1" 5 sampleInput] :=
  ⟨by decide, rfl⟩

/-- C1 (amended): partition isolation holds whenever the partitions'
underlying storage keys differ — in key-value mode whenever the colon-joined
composite keys `user:<u>:repo:<r>:branch:<b>` are distinct (which distinct
triples guarantee when the identifiers contain no `:`), and in file mode
whenever the derived storage paths are distinct. Any sequence of
createGoal/createPlan/addTodo/updateTodoStatus/removeTodo/savePlan
operations against P1 then leaves P2's stored value unchanged and P2's
`getTodos`/`getAllTodos` results (any goal-id argument, or none) unchanged. -/
theorem C1_partition_isolation (ctx₁ ctx₂ : RedisCtx)
    (hk : RedisStorage.dataKey ctx₁ ≠ RedisStorage.dataKey ctx₂)
    (ops : List Op) (st : RStore) (g : Option String)
    (s : FileStorage) (fs : FileSys) (p₂ : String)
    (hp : p₂ ≠ Storage.storagePath s) :
    aget (RedisStorage.dataKey ctx₂) (applyROps ctx₁ ops st)
      = aget (RedisStorage.dataKey ctx₂) st ∧
    RedisStorage.getTodos g ctx₂ (applyROps ctx₁ ops st)
      = RedisStorage.getTodos g ctx₂ st ∧
    aget p₂ (applyFOps ops (s, fs)).2 = aget p₂ fs := by
  have h := aget_applyROps_ne ctx₁ (Ne.symm hk) ops st
  refine ⟨h, ?_, (applyFOps_locality ops s fs).2.2 p₂ hp⟩
  simp [RedisStorage.getTodos, RedisStorage.getDoc, h]

/-- C1 witness: the amended theorem applied to two concrete distinct
partitions with distinct keys, a one-operation history, and a file instance
with a distinct second path. -/
theorem C1_witness :
    RedisStorage.getTodos (some "g") { userId := "u", repository := "r2", branch := "b" }
        (applyROps { userId := "u", repository := "r1", branch := "b" }
          [Op.addTodo 5 "t1" "alt" "g" sampleInput] [])
      = RedisStorage.getTodos (some "g")
          { userId := "u", repository := "r2", branch := "b" } [] ∧
    aget "other-path" (applyFOps [Op.addTodo 5 "t1" "alt" "g" sampleInput]
        ({ projectPath := "p", currentBranch := "b",
           data := Storage.emptyData "p" "b" }, [])).2
      = aget "other-path" ([] : FileSys) := by
  have h := C1_partition_isolation
    { userId := "u", repository := "r1", branch := "b" }
    { userId := "u", repository := "r2", branch := "b" }
    (by decide) [Op.addTodo 5 "t1" "alt" "g" sampleInput] [] (some "g")
    { projectPath := "p", currentBranch := "b", data := Storage.emptyData "p" "b" }
    [] "other-path" (by decide)
  exact ⟨h.2.1, h.2.2⟩

/-! ## Id allocation in the file backend

The file backend allocates every id as `Date.now().toString()`. The claims
about id uniqueness concern sequences of `createGoal`/`addTodo` calls
(`createPlan` is included because `addTodo` requires a plan); each call
carries the clock value at which it ran.
-/

inductive AllocOp where
  | createGoal (now : Nat) (description : String)
  | createPlan (now : Nat) (goalId : String)
  | addTodo (now : Nat) (goalId : String) (inp : TodoInput)
deriving Repr, DecidableEq

def allocNow : AllocOp → Nat
  | .createGoal now _ => now
  | .createPlan now _ => now
  | .addTodo now _ _ => now

def applyAllocOp (op : AllocOp) : FileStorage × FileSys → FileStorage × FileSys
  | (s, fs) =>
    match op with
    | .createGoal now d => (Storage.createGoal now d s fs).2
    | .createPlan now goalId => (Storage.createPlan now goalId s fs).2
    | .addTodo now goalId inp =>
      match Storage.addTodo now goalId inp s fs with
      | .ok r => r.2
      | .error _ => (s, fs)

def applyAllocOps (ops : List AllocOp) (p : FileStorage × FileSys) :
    FileStorage × FileSys :=
  ops.foldl (fun p op => applyAllocOp op p) p

/-- Creation timestamps present in a partition (todos and goals). -/
def allTimes (s : FileStorage) : List Nat :=
  (Storage.getAllTodos s).map Todo.createdAt ++ (avalues s.data.goals).map Goal.createdAt

/-- Invariant of states reachable by the file backend from an empty
partition: every id is the decimal rendering of its creation timestamp,
creation timestamps are pairwise distinct among todos and among goals, and
the goal table's keys are the goals' ids. -/
def TimeStamped (s : FileStorage) : Prop :=
  (∀ t ∈ Storage.getAllTodos s, t.id = Nat.repr t.createdAt) ∧
  (Storage.getAllTodos s).Pairwise (fun a b => a.createdAt ≠ b.createdAt) ∧
  (∀ g ∈ avalues s.data.goals, g.id = Nat.repr g.createdAt) ∧
  (avalues s.data.goals).Pairwise (fun a b => a.createdAt ≠ b.createdAt) ∧
  akeys s.data.goals = (avalues s.data.goals).map Goal.id

/-- Decomposition of the all-todos flatten at an existing plan key: the
flatten before and after replacing that plan share a common frame. -/
theorem avalues_cons {α : Type} (k : String) (v : α) (l : List (String × α)) :
    avalues ((k, v) :: l) = v :: avalues l := rfl

theorem flat_aset_decomp {k : String} {p : ImplementationPlan} :
    ∀ {l : List (String × ImplementationPlan)}, aget k l = some p →
      ∀ v : ImplementationPlan,
      ∃ A B, (avalues l).flatMap ImplementationPlan.todos = A ++ (p.todos ++ B) ∧
        (avalues (aset k v l)).flatMap ImplementationPlan.todos = A ++ (v.todos ++ B) := by
  intro l
  induction l with
  | nil => intro h; simp [aget] at h
  | cons hd tl ih =>
    obtain ⟨k₀, p₀⟩ := hd
    intro h v
    by_cases hk : k₀ = k
    · subst hk
      simp only [aget, if_true] at h
      obtain rfl : p₀ = p := by simpa using h
      refine ⟨[], (avalues tl).flatMap ImplementationPlan.todos, ?_, ?_⟩
      · simp [avalues_cons]
      · simp [aset, avalues_cons]
    · simp only [aget, hk, if_false] at h
      obtain ⟨A, B, h1, h2⟩ := ih h v
      refine ⟨p₀.todos ++ A, B, ?_, ?_⟩
      · simp [aset, hk, avalues_cons, h1, List.append_assoc]
      · simp [aset, hk, avalues_cons, h2, List.append_assoc]

theorem flat_aset_append {k : String} {l : List (String × ImplementationPlan)}
    (h : aget k l = none) (v : ImplementationPlan) :
    (avalues (aset k v l)).flatMap ImplementationPlan.todos
      = (avalues l).flatMap ImplementationPlan.todos ++ v.todos := by
  induction l with
  | nil => simp [aset, avalues]
  | cons hd tl ih =>
    obtain ⟨k₀, p₀⟩ := hd
    by_cases hk : k₀ = k
    · simp [aget, hk] at h
    · simp only [aget, hk, if_false] at h
      simp [aset, hk, avalues_cons, ih h, List.append_assoc]

/-- `addTodo` at an existing plan permutes the all-todos flatten to the old
flatten with the new todo appended. -/
theorem addTodo_allTodos_perm {now : Nat} {goalId : String} {inp : TodoInput}
    {s : FileStorage} {fs : FileSys} {plan : ImplementationPlan}
    (hp : Storage.getPlan goalId s = some plan) :
    ∀ {t : Todo} {rest : FileStorage × FileSys},
      Storage.addTodo now goalId inp s fs = .ok (t, rest) →
      List.Perm (Storage.getAllTodos rest.1) (Storage.getAllTodos s ++ [t]) := by
  intro t rest h
  simp only [Storage.addTodo, hp, Storage.save] at h
  have hpair := Except.ok.inj h
  have ht : mkTodo (Nat.repr now) now inp = t := congrArg Prod.fst hpair
  have hr := congrArg Prod.snd hpair
  subst ht
  subst hr
  obtain ⟨A, B, h1, h2⟩ := flat_aset_decomp (show aget goalId s.data.plans = some plan
      from hp)
    { plan with todos := plan.todos ++ [mkTodo (Nat.repr now) now inp], updatedAt := now }
  simp only [Storage.getAllTodos] at h1 h2 ⊢
  rw [h2, h1]
  have p1 : List.Perm
      ((plan.todos ++ [mkTodo (Nat.repr now) now inp]) ++ B)
      (plan.todos ++ (B ++ [mkTodo (Nat.repr now) now inp])) := by
    rw [List.append_assoc]
    exact List.Perm.append_left plan.todos List.perm_append_comm
  have p2 := List.Perm.append_left A p1
  have heq : A ++ (plan.todos ++ (B ++ [mkTodo (Nat.repr now) now inp]))
      = (A ++ (plan.todos ++ B)) ++ [mkTodo (Nat.repr now) now inp] := by
    simp [List.append_assoc]
  rw [heq] at p2
  exact p2

theorem avalues_append_single {α : Type} (l : List (String × α)) (k : String) (v : α) :
    avalues (l ++ [(k, v)]) = avalues l ++ [v] := by
  simp [avalues]

theorem akeys_append_single {α : Type} (l : List (String × α)) (k : String) (v : α) :
    akeys (l ++ [(k, v)]) = akeys l ++ [k] := by
  simp [akeys]

/-- `createGoal` preserves the reachable-state invariant when its clock
value is fresh, and only adds that clock value to the stamp set. -/
theorem allocStep_createGoal (now : Nat) (d : String) (s : FileStorage) (fs : FileSys)
    (hInv : TimeStamped s) (hfresh : now ∉ allTimes s) :
    TimeStamped (Storage.createGoal now d s fs).2.1 ∧
    ∀ x ∈ allTimes (Storage.createGoal now d s fs).2.1,
      x ∈ allTimes s ∨ x = now := by
  obtain ⟨h1, h2, h3, h4, h5⟩ := hInv
  have hnotime : now ∉ (avalues s.data.goals).map Goal.createdAt := fun hmem =>
    hfresh (by rw [allTimes]; exact List.mem_append.mpr (Or.inr hmem))
  have hnokey : Nat.repr now ∉ akeys s.data.goals := by
    rw [h5]
    intro hmem
    obtain ⟨g, hg, hgid⟩ := List.mem_map.mp hmem
    have : g.createdAt = now := repr_injective (by rw [← h3 g hg, hgid])
    exact hnotime (List.mem_map.mpr ⟨g, hg, this⟩)
  have hset := aset_of_not_mem_keys hnokey
    ({ id := Nat.repr now, description := d, createdAt := now,
       repository := none, branch := none } : Goal)
  have htodos : Storage.getAllTodos (Storage.createGoal now d s fs).2.1
      = Storage.getAllTodos s := rfl
  have hgoals : (Storage.createGoal now d s fs).2.1.data.goals
      = s.data.goals ++ [(Nat.repr now,
          { id := Nat.repr now, description := d, createdAt := now,
            repository := none, branch := none })] := by
    simp only [Storage.createGoal, Storage.save]
    exact hset
  refine ⟨⟨?_, ?_, ?_, ?_, ?_⟩, ?_⟩
  · rw [htodos]; exact h1
  · rw [htodos]; exact h2
  · rw [hgoals, avalues_append_single]
    intro g hg
    rcases List.mem_append.mp hg with hg | hg
    · exact h3 g hg
    · simp at hg
      subst hg
      rfl
  · rw [hgoals, avalues_append_single]
    rw [List.pairwise_append]
    refine ⟨h4, by simp, ?_⟩
    intro a ha b hb
    simp at hb
    subst hb
    intro heq
    exact hnotime (List.mem_map.mpr ⟨a, ha, heq⟩)
  · rw [hgoals, avalues_append_single, akeys_append_single, List.map_append, h5]
    simp
  · intro x hx
    rw [allTimes, htodos, hgoals, avalues_append_single, List.map_append] at hx
    rcases List.mem_append.mp hx with hx | hx
    · exact Or.inl (by rw [allTimes]; exact List.mem_append.mpr (Or.inl hx))
    · rcases List.mem_append.mp hx with hx | hx
      · exact Or.inl (by rw [allTimes]; exact List.mem_append.mpr (Or.inr hx))
      · simp at hx
        exact Or.inr hx

/-- `createPlan` preserves the invariant (it only empties or creates one
plan) and adds no stamps. -/
theorem allocStep_createPlan (now : Nat) (goalId : String) (s : FileStorage)
    (fs : FileSys) (hInv : TimeStamped s) :
    TimeStamped (Storage.createPlan now goalId s fs).2.1 ∧
    ∀ x ∈ allTimes (Storage.createPlan now goalId s fs).2.1, x ∈ allTimes s := by
  obtain ⟨h1, h2, h3, h4, h5⟩ := hInv
  have hgoals : (Storage.createPlan now goalId s fs).2.1.data.goals = s.data.goals := rfl
  have hsub : List.Sublist (Storage.getAllTodos (Storage.createPlan now goalId s fs).2.1)
      (Storage.getAllTodos s) := by
    cases hpl : aget goalId s.data.plans with
    | some p =>
      obtain ⟨A, B, hA, hB⟩ := flat_aset_decomp hpl
        ({ goalId := goalId, todos := [], updatedAt := now } : ImplementationPlan)
      show List.Sublist
        ((avalues (aset goalId _ s.data.plans)).flatMap ImplementationPlan.todos)
        ((avalues s.data.plans).flatMap ImplementationPlan.todos)
      rw [hA, hB]
      simp only [List.nil_append]
      exact List.Sublist.append_left (List.sublist_append_right _ _) A
    | none =>
      show List.Sublist
        ((avalues (aset goalId _ s.data.plans)).flatMap ImplementationPlan.todos)
        ((avalues s.data.plans).flatMap ImplementationPlan.todos)
      rw [flat_aset_append hpl]
      simp
  refine ⟨⟨?_, ?_, ?_, ?_, ?_⟩, ?_⟩
  · intro t ht
    exact h1 t (hsub.subset ht)
  · exact h2.sublist hsub
  · rw [hgoals]; exact h3
  · rw [hgoals]; exact h4
  · rw [show akeys (Storage.createPlan now goalId s fs).2.1.data.goals
        = akeys s.data.goals from rfl, hgoals]
    exact h5
  · intro x hx
    rw [allTimes] at hx ⊢
    rcases List.mem_append.mp hx with hx | hx
    · obtain ⟨t, ht, rfl⟩ := List.mem_map.mp hx
      exact List.mem_append.mpr (Or.inl (List.mem_map.mpr ⟨t, hsub.subset ht, rfl⟩))
    · rw [hgoals] at hx
      exact List.mem_append.mpr (Or.inr hx)

/-- `addTodo` preserves the invariant when its clock value is fresh; it
adds that clock value to the stamp set (or fails and changes nothing). -/
theorem allocStep_addTodo (now : Nat) (goalId : String) (inp : TodoInput)
    (s : FileStorage) (fs : FileSys) (hInv : TimeStamped s)
    (hfresh : now ∉ allTimes s) :
    TimeStamped (applyAllocOp (.addTodo now goalId inp) (s, fs)).1 ∧
    ∀ x ∈ allTimes (applyAllocOp (.addTodo now goalId inp) (s, fs)).1,
      x ∈ allTimes s ∨ x = now := by
  obtain ⟨h1, h2, h3, h4, h5⟩ := hInv
  cases hE : Storage.addTodo now goalId inp s fs with
  | error e =>
    simp only [applyAllocOp, hE]
    exact ⟨⟨h1, h2, h3, h4, h5⟩, fun x hx => Or.inl hx⟩
  | ok r =>
    obtain ⟨t, rest⟩ := r
    cases hp : Storage.getPlan goalId s with
    | none => simp [Storage.addTodo, hp] at hE
    | some plan =>
      have hperm := addTodo_allTodos_perm hp hE
      have hE' := hE
      simp only [Storage.addTodo, hp, Storage.save] at hE'
      have hpair := Except.ok.inj hE'
      have ht := congrArg Prod.fst hpair
      have hr := congrArg Prod.snd hpair
      subst ht
      subst hr
      have hnotime : now ∉ (Storage.getAllTodos s).map Todo.createdAt := fun hmem =>
        hfresh (by rw [allTimes]; exact List.mem_append.mpr (Or.inl hmem))
      simp only [applyAllocOp, hE]
      have hpairw : (Storage.getAllTodos s ++ [mkTodo (Nat.repr now) now inp]).Pairwise
          (fun a b => a.createdAt ≠ b.createdAt) := by
        rw [List.pairwise_append]
        refine ⟨h2, by simp, ?_⟩
        intro a ha b hb
        simp at hb
        subst hb
        intro heq
        exact hnotime (List.mem_map.mpr ⟨a, ha, heq⟩)
      refine ⟨⟨?_, ?_, h3, h4, h5⟩, ?_⟩
      · intro t' ht'
        rcases List.mem_append.mp (hperm.mem_iff.mp ht') with h | h
        · exact h1 t' h
        · simp at h
          subst h
          rfl
      · exact (List.Perm.pairwise_iff (fun h he => h he.symm) hperm).mpr hpairw
      · intro x hx
        rw [allTimes] at hx
        rcases List.mem_append.mp hx with hx | hx
        · obtain ⟨t', ht', rfl⟩ := List.mem_map.mp hx
          rcases List.mem_append.mp (hperm.mem_iff.mp ht') with h | h
          · refine Or.inl ?_
            rw [allTimes]
            exact List.mem_append.mpr (Or.inl (List.mem_map.mpr ⟨t', h, rfl⟩))
          · simp at h
            subst h
            exact Or.inr rfl
        · refine Or.inl ?_
          rw [allTimes]
          exact List.mem_append.mpr (Or.inr hx)

/-- Running any createGoal/createPlan/addTodo sequence whose clock values
are pairwise distinct and fresh preserves the reachable-state invariant. -/
theorem allocRun : ∀ (ops : List AllocOp) (s : FileStorage) (fs : FileSys),
    TimeStamped s →
    (∀ τ ∈ ops.map allocNow, τ ∉ allTimes s) →
    (ops.map allocNow).Pairwise (fun a b => a ≠ b) →
    TimeStamped (applyAllocOps ops (s, fs)).1 := by
  intro ops
  induction ops with
  | nil => intro s fs hInv _ _; exact hInv
  | cons op rest ih =>
    intro s fs hInv hfr hpw
    have hfr0 : allocNow op ∉ allTimes s := hfr _ (by simp)
    have hstep : TimeStamped (applyAllocOp op (s, fs)).1 ∧
        ∀ x ∈ allTimes (applyAllocOp op (s, fs)).1,
          x ∈ allTimes s ∨ x = allocNow op := by
      cases op with
      | createGoal now d => exact allocStep_createGoal now d s fs hInv hfr0
      | createPlan now g =>
        have h := allocStep_createPlan now g s fs hInv
        exact ⟨h.1, fun x hx => Or.inl (h.2 x hx)⟩
      | addTodo now g inp => exact allocStep_addTodo now g inp s fs hInv hfr0
    rw [List.map_cons] at hpw
    obtain ⟨hne, hpw'⟩ := List.pairwise_cons.mp hpw
    have hfr' : ∀ τ ∈ rest.map allocNow, τ ∉ allTimes (applyAllocOp op (s, fs)).1 := by
      intro τ hτ hmem
      rcases hstep.2 τ hmem with h | h
      · exact hfr τ (by rw [List.map_cons]; exact List.mem_cons_of_mem _ hτ) h
      · exact hne τ hτ h.symm
    have hrun := ih (applyAllocOp op (s, fs)).1 (applyAllocOp op (s, fs)).2
      hstep.1 hfr' hpw'
    exact hrun

/-- C7 counterexample: in the file backend, ids are `Date.now().toString()`;
two `addTodo` calls in the same millisecond (clock value 7) produce two
todos in the partition with the same id `"7"` — the ids assigned by
`addTodo` are not pairwise distinct under rapid succession. -/
theorem C7_counterexample :
    (Storage.getAllTodos (applyAllocOps
        [AllocOp.createGoal 5 "g", AllocOp.createPlan 6 "5",
         AllocOp.addTodo 7 "5" sampleInput, AllocOp.addTodo 7 "5" sampleInput]
        (Storage.mkStorage "p" "b", [])).1).map Todo.id = ["7", "7"] ∧
    ¬ (Storage.getAllTodos (applyAllocOps
        [AllocOp.createGoal 5 "g", AllocOp.createPlan 6 "5",
         AllocOp.addTodo 7 "5" sampleInput, AllocOp.addTodo 7 "5" sampleInput]
        (Storage.mkStorage "p" "b", [])).1).Pairwise (fun a b => a.id ≠ b.id) := by
  constructor
  · rfl
  · decide

/-- C7 (amended): in the file backend, starting from a fresh partition, for
every sequence of createGoal/createPlan/addTodo calls whose clock readings
are pairwise distinct, the ids across all todos of the partition are
pairwise distinct, and so are the ids across all goals (ids are the decimal
rendering of the allocating call's clock; calls sharing a millisecond
collide, as the counterexample shows). -/
theorem C7_id_uniqueness (ops : List AllocOp) (pp bb : String) (fs : FileSys)
    (hts : (ops.map allocNow).Pairwise (fun a b => a ≠ b)) :
    (Storage.getAllTodos (applyAllocOps ops (Storage.mkStorage pp bb, fs)).1).Pairwise
      (fun a b => a.id ≠ b.id) ∧
    (avalues (applyAllocOps ops (Storage.mkStorage pp bb, fs)).1.data.goals).Pairwise
      (fun a b => a.id ≠ b.id) := by
  have hInv0 : TimeStamped (Storage.mkStorage pp bb) := by
    refine ⟨?_, ?_, ?_, ?_, ?_⟩ <;>
      simp [Storage.mkStorage, Storage.emptyData, Storage.getAllTodos, avalues, akeys]
  have hfr0 : ∀ τ ∈ ops.map allocNow, τ ∉ allTimes (Storage.mkStorage pp bb) := by
    intro τ _ h
    simp [allTimes, Storage.mkStorage, Storage.emptyData, Storage.getAllTodos,
      avalues] at h
  obtain ⟨f1, f2, f3, f4, f5⟩ := allocRun ops _ fs hInv0 hfr0 hts
  constructor
  · exact List.Pairwise.imp_of_mem
      (fun ha hb hne hid => hne (repr_injective (by rw [← f1 _ ha, ← f1 _ hb, hid]))) f2
  · exact List.Pairwise.imp_of_mem
      (fun ha hb hne hid => hne (repr_injective (by rw [← f3 _ ha, ← f3 _ hb, hid]))) f4

/-- C7 witness: the amended theorem applied to a concrete four-call history
whose clock readings 5, 6, 7, 8 are pairwise distinct. -/
theorem C7_witness :
    (Storage.getAllTodos (applyAllocOps
        [AllocOp.createGoal 5 "g", AllocOp.createPlan 6 "5",
         AllocOp.addTodo 7 "5" sampleInput, AllocOp.addTodo 8 "5" sampleInput]
        (Storage.mkStorage "p" "b", [])).1).Pairwise (fun a b => a.id ≠ b.id) ∧
    (avalues (applyAllocOps
        [AllocOp.createGoal 5 "g", AllocOp.createPlan 6 "5",
         AllocOp.addTodo 7 "5" sampleInput, AllocOp.addTodo 8 "5" sampleInput]
        (Storage.mkStorage "p" "b", [])).1.data.goals).Pairwise
      (fun a b => a.id ≠ b.id) :=
  C7_id_uniqueness
    [AllocOp.createGoal 5 "g", AllocOp.createPlan 6 "5",
     AllocOp.addTodo 7 "5" sampleInput, AllocOp.addTodo 8 "5" sampleInput]
    "p" "b" [] (by decide)

end Planning
